import Mathlib

/-!
Verification development for the `create-react-vite` scaffolding CLI.

The repository's core logic (JSON overlay merging, the package-manager
command table, the template registry, and the Tailwind add-on's textual
rewrite of `vite.config.js`) is shallowly embedded below.

Modelling conventions:
* JSON documents are the inductive `JValue`; JavaScript objects are
  association lists `List (String × JValue)` preserving insertion order,
  which is the key order both `JSON.parse` and `JSON.stringify` use.
* A file that holds JSON is modelled by the parsed document
  (`Option JValue`, `none` = file absent); the bytes on disk are
  `jsonFileBytes doc`, mirroring `JSON.stringify(doc, null, 2) + '\n'`.
* A mutation callback handed to `upsertJSON` is modelled as
  `JValue → JValue × Option JValue`: the first component is the (possibly
  in-place mutated) argument after the call, the second the callback's
  return value (`none` = JavaScript `undefined`).
* Strings manipulated by the Tailwind `vite.config.js` rewrite are
  `List Char`; the fixed regular expression
  `/plugins:\s*\[\s*react\(\)\s*\]/` is embedded as a deterministic
  matcher (all of its literal pieces start with non-whitespace characters,
  so greedy `\s*` is exact maximal-munch and matching is unambiguous).
-/

namespace CRV

/- ----------------------------------------------------------------- -/
/- JSON data model                                                    -/
/- ----------------------------------------------------------------- -/

/-- JSON values as produced by `JSON.parse`.  Objects keep their key
insertion order, as JavaScript objects with string keys do. -/
inductive JValue where
  | null : JValue
  | bool (b : Bool) : JValue
  | num (n : Int) : JValue
  | str (s : String) : JValue
  | arr (xs : List JValue) : JValue
  | obj (kvs : List (String × JValue)) : JValue

/-- A JavaScript object: ordered association list of key/value pairs. -/
abbrev JObj := List (String × JValue)

/-- JavaScript truthiness of a JSON value (objects and arrays are always
truthy; `""`, `0`, `false` and `null` are falsy). -/
def jsTruthy : JValue → Bool
  | .null => false
  | .bool b => b
  | .num n => n != 0
  | .str s => s != ""
  | .arr _ => true
  | .obj _ => true

/-- Property read `d[k]` on an object. -/
def getKey : JObj → String → Option JValue
  | [], _ => none
  | (k', v') :: rest, k => if k' = k then some v' else getKey rest k

/-- Property write `d[k] = v`: an existing key keeps its position, a new
key is appended at the end (JavaScript insertion-order semantics; the
object spread `{ ...d, k: v }` behaves the same way). -/
def setKey : JObj → String → JValue → JObj
  | [], k, v => [(k, v)]
  | (k', v') :: rest, k, v =>
      if k' = k then (k', v) :: rest else (k', v') :: setKey rest k v

/-- Index of a key among the object's entries (its "key position"). -/
def keyIdx : JObj → String → Nat
  | [], _ => 0
  | (k', _) :: rest, k => if k' = k then 0 else keyIdx rest k + 1

/- ----------------------------------------------------------------- -/
/- JavaScript property-enumeration order                              -/
/- ----------------------------------------------------------------- -/

/-- The numeric value of a digit string. -/
def keyNumVal (s : String) : Nat :=
  s.data.foldl (fun n c => n * 10 + (c.toNat - 48)) 0

/-- A JavaScript array-index key: the canonical decimal string of an
unsigned 32-bit value below `2^32 - 1`.  Property enumeration — and
hence `JSON.stringify` and object spread — lists these keys first, in
ascending numeric order, before the remaining keys in insertion
order. -/
def isArrayIndexKey (s : String) : Bool :=
  match s.data with
  | [] => false
  | ['0'] => true
  | c :: rest => c != '0' && (c :: rest).all Char.isDigit && keyNumVal s < 4294967295

/-- Insert an entry into a list sorted by ascending numeric key
value. -/
def insertByKeyNum (p : String × JValue) :
    List (String × JValue) → List (String × JValue)
  | [] => [p]
  | q :: rest =>
      if keyNumVal p.1 ≤ keyNumVal q.1 then p :: q :: rest
      else q :: insertByKeyNum p rest

/-- Sort entries by ascending numeric key value (insertion sort). -/
def sortByKeyNum (l : List (String × JValue)) : List (String × JValue) :=
  l.foldr insertByKeyNum []

/-- The enumeration order of an object's entries: array-index keys
first in ascending numeric order, then the remaining keys in insertion
order.  The stored association list keeps pure insertion order (what
the object remembers); observable key positions go through
`jsOrder`. -/
def jsOrder (d : JObj) : JObj :=
  sortByKeyNum (d.filter fun kv => isArrayIndexKey kv.1) ++
    (d.filter fun kv => !isArrayIndexKey kv.1)

mutual

/-- A document with every object's entries put into enumeration order,
as `JSON.stringify` traverses them. -/
def jsOrderVal : JValue → JValue
  | .null => .null
  | .bool b => .bool b
  | .num n => .num n
  | .str s => .str s
  | .arr xs => .arr (jsOrderArr xs)
  | .obj kvs => .obj (jsOrder (jsOrderObj kvs))

/-- `jsOrderVal` mapped over array elements. -/
def jsOrderArr : List JValue → List JValue
  | [] => []
  | x :: xs => jsOrderVal x :: jsOrderArr xs

/-- `jsOrderVal` mapped over entry values. -/
def jsOrderObj : List (String × JValue) → List (String × JValue)
  | [] => []
  | (k, v) :: kvs => (k, jsOrderVal v) :: jsOrderObj kvs

end

/- ----------------------------------------------------------------- -/
/- JSON serialization: JSON.stringify(v, null, 2)                     -/
/- ----------------------------------------------------------------- -/

/-- `n` spaces of indentation. -/
def spacesN (n : Nat) : String := String.mk (List.replicate n ' ')

/-- JSON string escaping for one character. -/
def escChar (c : Char) : String :=
  if c = '"' then "\\\""
  else if c = '\\' then "\\\\"
  else if c = '\n' then "\\n"
  else if c = '\t' then "\\t"
  else if c = '\r' then "\\r"
  else String.singleton c

/-- A JSON string literal with quotes and escapes. -/
def quoteJSON (s : String) : String :=
  "\"" ++ String.join (s.data.map escChar) ++ "\""

mutual

/-- `JSON.stringify(v, null, 2)` where `ind` is the current indentation
of the surrounding context. -/
def stringifyVal : Nat → JValue → String
  | _, .null => "null"
  | _, .bool b => if b then "true" else "false"
  | _, .num n => toString n
  | _, .str s => quoteJSON s
  | _, .arr [] => "[]"
  | ind, .arr (x :: xs) =>
      "[\n" ++ stringifyArr (ind + 2) (x :: xs) ++ "\n" ++ spacesN ind ++ "]"
  | _, .obj [] => "\x7b\x7d"
  | ind, .obj (kv :: kvs) =>
      "\x7b\n" ++ stringifyObj (ind + 2) (kv :: kvs) ++ "\n" ++ spacesN ind ++ "\x7d"

/-- Comma-and-newline separated array elements, one per line. -/
def stringifyArr : Nat → List JValue → String
  | _, [] => ""
  | ind, [x] => spacesN ind ++ stringifyVal ind x
  | ind, x :: y :: xs =>
      spacesN ind ++ stringifyVal ind x ++ ",\n" ++ stringifyArr ind (y :: xs)

/-- Comma-and-newline separated object entries, one per line. -/
def stringifyObj : Nat → List (String × JValue) → String
  | _, [] => ""
  | ind, [(k, v)] => spacesN ind ++ quoteJSON k ++ ": " ++ stringifyVal ind v
  | ind, (k, v) :: kv :: kvs =>
      spacesN ind ++ quoteJSON k ++ ": " ++ stringifyVal ind v ++ ",\n" ++
        stringifyObj ind (kv :: kvs)

end

/-- The bytes `upsertJSON` writes for a document:
`JSON.stringify(updated, null, 2) + '\n'`, with every object's entries
serialized in JavaScript property-enumeration order. -/
def jsonFileBytes (v : JValue) : String := stringifyVal 0 (jsOrderVal v) ++ "\n"

/- ----------------------------------------------------------------- -/
/- upsertJSON                                                         -/
/- ----------------------------------------------------------------- -/

/-- `upsertJSON(filepath, mutate)` from `bootstrap-react-vite.mjs`
modelled on the parsed document:

    const data = exists ? JSON.parse(read(filepath)) : {};
    const updated = mutate(data) || data;
    write(filepath, JSON.stringify(updated, null, 2) + '\n');

`file` is the parsed current content (`none` = file absent).  The
callback returns the pair (argument object after the call, returned
value); `mutate(data) || data` keeps the returned value when it is
truthy and otherwise falls back to the (possibly mutated) argument. -/
def upsertJSONDoc (file : Option JValue) (mutate : JValue → JValue × Option JValue) :
    JValue :=
  let data := file.getD (.obj [])
  match mutate data with
  | (data', some v) => if jsTruthy v then v else data'
  | (data', none) => data'

/- ----------------------------------------------------------------- -/
/- The "set-if-absent" / "set-union" mutation class (spec 4.3)        -/
/- ----------------------------------------------------------------- -/

/-- The class of updates the spec's idempotence property quantifies
over: "set-if-absent" writes a default only when the key is missing,
"set-union" adds a string to an array-valued key only when not already
present (spec glossary). -/
inductive MutOp where
  | setIfAbsent (k : String) (v : JValue) : MutOp
  | setUnion (k : String) (s : String) : MutOp

/-- Does the array (treated as a set of plugin names) already contain
the string `s`? -/
def containsStr (xs : List JValue) (s : String) : Bool :=
  xs.any fun v => match v with | .str t => t = s | _ => false

/-- One set-if-absent / set-union update applied to an object. -/
def applyOp (d : JObj) : MutOp → JObj
  | .setIfAbsent k v => if (getKey d k).isSome then d else setKey d k v
  | .setUnion k s =>
      match getKey d k with
      | some (.arr xs) =>
          if containsStr xs s then d else setKey d k (.arr (xs ++ [.str s]))
      | some _ => d
      | none => setKey d k (.arr [.str s])

/-- A whole mutation: a sequence of such updates. -/
def applyMut (ops : List MutOp) (d : JObj) : JObj := ops.foldl applyOp d

/-- The key an update references. -/
def opKeyOf : MutOp → String
  | .setIfAbsent k _ => k
  | .setUnion k _ => k

/-- The keys a mutation references. -/
def opsKeys (ops : List MutOp) : List String := ops.map opKeyOf

/-- The callback a list of set-if-absent/set-union updates induces: it
updates the object and returns it (objects are truthy, so `upsertJSON`
uses the returned document).  Non-object documents are outside the
class's domain and are left unchanged. -/
def mutFromOps (ops : List MutOp) : JValue → JValue × Option JValue :=
  fun v => match v with
  | .obj d => (JValue.obj (applyMut ops d), some (JValue.obj (applyMut ops d)))
  | v => (v, some v)

/- ----------------------------------------------------------------- -/
/- Package-manager command table (bootstrap-react-vite.mjs, utils.mjs)-/
/- ----------------------------------------------------------------- -/

/-- `depCmd(pm, deps, dev)`: `null` for an empty dependency list, a
`switch` on the package manager with `default: return null`. -/
def depCmd (pm : String) (deps : List String) (dev : Bool) : Option String :=
  if deps.isEmpty then none
  else if pm = "npm" then
    some ("npm i " ++ (if dev then "-D " else "") ++ String.intercalate " " deps)
  else if pm = "yarn" then
    some ("yarn add " ++ (if dev then "-D " else "") ++ String.intercalate " " deps)
  else if pm = "pnpm" then
    some ("pnpm add " ++ (if dev then "-D " else "") ++ String.intercalate " " deps)
  else none

/-- `installCmd(pm)`: a `switch` whose `default` falls back to
`'npm install'`. -/
def installCmd (pm : String) : String :=
  if pm = "npm" then "npm install"
  else if pm = "yarn" then "yarn install"
  else if pm = "pnpm" then "pnpm install"
  else "npm install"

/-- `runScriptCmd(pm, script)` from `utils.mjs`: default falls back to
`npm run <script>`. -/
def runScriptCmd (pm script : String) : String :=
  if pm = "npm" then "npm run " ++ script
  else if pm = "yarn" then "yarn " ++ script
  else if pm = "pnpm" then "pnpm " ++ script
  else "npm run " ++ script

/-- Lock-file based package-manager detection from `main` (both
variants): `pnpm-lock.yaml` forces pnpm, else `yarn.lock` forces yarn,
else the requested manager stands. -/
def detectPM (pnpmLockExists yarnLockExists : Bool) (pm : String) : String :=
  if pnpmLockExists then "pnpm"
  else if yarnLockExists then "yarn"
  else pm

/- ----------------------------------------------------------------- -/
/- parseArgs of the part_000 variant                                  -/
/- ----------------------------------------------------------------- -/

/-- Result record of the part_000 variant's `parseArgs`. -/
structure ParsedArgs where
  appName : String
  template : String
  pm : String
  tailwind : Bool
  deriving DecidableEq

/-- The option loop of part_000 `parseArgs` (indices 2.. of argv):
`--pm <name>`/`--package-manager <name>` consumes a truthy (non-empty)
following argument; `--tailwind`/`-t` sets the flag. -/
def scanOpts : List String → String → Bool → String × Bool
  | [], pm, tw => (pm, tw)
  | [a], pm, tw => if a = "--tailwind" || a = "-t" then (pm, true) else (pm, tw)
  | a :: v :: rest, pm, tw =>
      if (a = "--pm" || a = "--package-manager") && v != "" then
        scanOpts rest v tw
      else if a = "--tailwind" || a = "-t" then
        scanOpts (v :: rest) pm true
      else
        scanOpts (v :: rest) pm tw

/-- `parseArgs(argv)` of the part_000 variant.  `none` models the
help/early-exit path.  Invalid package managers are replaced by the
default: `if (!['npm','yarn','pnpm'].includes(pm)) pm = 'npm'`. -/
def parseArgsPart000 (argv : List String) : Option ParsedArgs :=
  if argv.any (fun a => a = "-h" || a = "--help") then none
  else
    let appName := match argv.head? with
      | some s => if s != "" then s else "my-app"
      | none => "my-app"
    let template := if argv.get? 1 = some "react-ts" then "react-ts" else "react"
    let (pm, tailwind) := scanOpts (argv.drop 2) "npm" false
    let pm := if ["npm", "yarn", "pnpm"].contains pm then pm else "npm"
    some ⟨appName, template, pm, tailwind⟩

/- ----------------------------------------------------------------- -/
/- The Tailwind prettier-plugins merge (enableTailwind, both variants)-/
/- ----------------------------------------------------------------- -/

/-- JavaScript `SameValueZero` equality as used by `Set` on values that
come out of `JSON.parse`: primitives compare by value; objects and
arrays are distinct references (each parse node is fresh), so they never
compare equal. -/
def jsPrimEq : JValue → JValue → Bool
  | .null, .null => true
  | .bool a, .bool b => a = b
  | .num a, .num b => a = b
  | .str a, .str b => a = b
  | _, _ => false

/-- `Set.prototype.add` on the insertion-ordered element list. -/
def setInsert (seen : List JValue) (v : JValue) : List JValue :=
  if seen.any (fun w => jsPrimEq w v) then seen else seen ++ [v]

/-- `new Set(xs)`: first occurrences, in insertion order. -/
def setFromList (xs : List JValue) : List JValue := xs.foldl setInsert []

/-- `cfg.plugins || []` restricted to the merge's domain: an array, or
absent/falsy which yield `[]`.  (A truthy non-array value would be
spread by the JavaScript code — outside the modelled domain, the
theorems' hypotheses exclude it.) -/
def pluginsOf (cfg : JObj) : List JValue :=
  match getKey cfg "plugins" with
  | some (.arr xs) => xs
  | _ => []

/-- The `upsertJSON` callback of `enableTailwind` for `.prettierrc.json`:

    const plugins = new Set([...(cfg.plugins || [])]);
    plugins.add('prettier-plugin-tailwindcss');
    return { ...cfg, plugins: [...plugins] };
-/
def prettierPluginsMutate (cfg : JObj) : JObj :=
  let plugins := setFromList (pluginsOf cfg)
  let plugins := setInsert plugins (.str "prettier-plugin-tailwindcss")
  setKey cfg "plugins" (.arr plugins)

/- ----------------------------------------------------------------- -/
/- The package.json merge (main, both variants)                       -/
/- ----------------------------------------------------------------- -/

/-- `d[k] ||= v`: assigns when the current value is absent or falsy,
leaves truthy values alone. -/
def orAssign (d : JObj) (k : String) (v : JValue) : JObj :=
  match getKey d k with
  | some w => if jsTruthy w then d else setKey d k v
  | none => setKey d k v

/-- `d[outer][k] ||= v` when `d[outer]` is an object.  (If `d[outer]`
were a truthy primitive the strict-mode JavaScript would throw on the
property assignment; that case is outside the modelled domain and is
mapped to the identity, the theorems' hypotheses exclude it.) -/
def orAssignIn (d : JObj) (outer k : String) (v : JValue) : JObj :=
  match getKey d outer with
  | some (.obj inner) => setKey d outer (.obj (orAssign inner k v))
  | _ => d

/-- The `upsertJSON` callback `main` applies to `package.json`
(lines 241-255 of `bootstrap-react-vite.mjs`; identical in part_000):
every update uses `||=`. -/
def pkgMutate (pkg : JObj) : JObj :=
  let pkg := orAssign pkg "scripts" (.obj [])
  let pkg := orAssignIn pkg "scripts" "prepare" (.str "husky")
  let pkg := orAssignIn pkg "scripts" "lint" (.str "eslint .")
  let pkg := orAssignIn pkg "scripts" "lint:fix" (.str "eslint . --fix")
  let pkg := orAssignIn pkg "scripts" "format" (.str "prettier --write .")
  let pkg := orAssign pkg "lint-staged" (.obj [])
  let pkg := orAssignIn pkg "lint-staged" "*.\x7bjs,jsx,ts,tsx\x7d"
      (.arr [.str "eslint --fix", .str "prettier --write"])
  let pkg := orAssignIn pkg "lint-staged" "*.\x7bjson,css,md\x7d"
      (.arr [.str "prettier --write"])
  pkg

/- ----------------------------------------------------------------- -/
/- Template registry (file-registry.mjs)                              -/
/- ----------------------------------------------------------------- -/

/-- The `.prettierrc.json` document. -/
def prettierrcDoc : JValue := .obj
  [("semi", .bool true),
   ("singleQuote", .bool true),
   ("trailingComma", .str "es5"),
   ("printWidth", .num 80),
   ("tabWidth", .num 2),
   ("bracketSpacing", .bool true),
   ("arrowParens", .str "always")]

/-- `prettierrcJson = JSON.stringify(doc, null, 2) + '\n'`. -/
def prettierrcJson : String := stringifyVal 0 prettierrcDoc ++ "\n"

/-- `.prettierignore` content: `[...].join('\n')`. -/
def prettierIgnore : String :=
  String.intercalate "\n"
    ["node_modules", "dist", "build", "coverage", ".next", "out",
     "package-lock.json", "yarn.lock", "pnpm-lock.yaml", ""]

/-- The TypeScript `.eslintrc.json` document. -/
def eslintrcTypeScriptDoc : JValue := .obj
  [("env", .obj [("browser", .bool true), ("es2021", .bool true), ("node", .bool true)]),
   ("parser", .str "@typescript-eslint/parser"),
   ("parserOptions", .obj [("project", .bool false)]),
   ("extends", .arr
     [.str "eslint:recommended",
      .str "plugin:@typescript-eslint/recommended",
      .str "plugin:react/recommended",
      .str "plugin:react-hooks/recommended",
      .str "plugin:prettier/recommended"]),
   ("plugins", .arr
     [.str "@typescript-eslint", .str "react", .str "react-hooks", .str "prettier"]),
   ("rules", .obj [("prettier/prettier", .str "error"), ("react/prop-types", .str "off")]),
   ("settings", .obj [("react", .obj [("version", .str "detect")])])]

/-- `eslintrcTypeScript = JSON.stringify(doc, null, 2) + '\n'`. -/
def eslintrcTypeScript : String := stringifyVal 0 eslintrcTypeScriptDoc ++ "\n"

/-- The JavaScript `.eslintrc.json` document. -/
def eslintrcJavaScriptDoc : JValue := .obj
  [("env", .obj [("browser", .bool true), ("es2021", .bool true), ("node", .bool true)]),
   ("extends", .arr
     [.str "eslint:recommended",
      .str "plugin:react/recommended",
      .str "plugin:react-hooks/recommended",
      .str "plugin:prettier/recommended"]),
   ("plugins", .arr [.str "react", .str "react-hooks", .str "prettier"]),
   ("rules", .obj [("prettier/prettier", .str "error"), ("react/prop-types", .str "off")]),
   ("settings", .obj [("react", .obj [("version", .str "detect")])])]

/-- `eslintrcJavaScript = JSON.stringify(doc, null, 2) + '\n'`. -/
def eslintrcJavaScript : String := stringifyVal 0 eslintrcJavaScriptDoc ++ "\n"

/-- `.eslintignore` content. -/
def eslintIgnore : String :=
  String.intercalate "\n"
    ["dist", "node_modules", "vite.config.*.ts", "vite.config.*.js", ""]

/-- The `.vscode/settings.json` document. -/
def vsCodeSettingsDoc : JValue := .obj
  [("editor.defaultFormatter", .str "esbenp.prettier-vscode"),
   ("editor.formatOnSave", .bool true),
   ("editor.formatOnSaveMode", .str "modifications"),
   ("prettier.prettierPath", .str "./node_modules/prettier"),
   ("eslint.validate", .arr
     [.str "javascript", .str "javascriptreact", .str "typescript", .str "typescriptreact"]),
   ("editor.codeActionsOnSave", .obj
     [("source.fixAll", .str "explicit"), ("source.fixAll.eslint", .str "explicit")])]

/-- `vsCodeSettings = JSON.stringify(doc, null, 2) + '\n'`. -/
def vsCodeSettings : String := stringifyVal 0 vsCodeSettingsDoc ++ "\n"

/-- `src/App.tsx` starter (plain). -/
def appTypeScript : String :=
  "import \x7b useState \x7d from 'react';\nimport './App.css';\n\nexport default function App() \x7b\n  const [count, setCount] = useState<number>(0);\n  return (\n    <div className=\"App\" style=\x7b\x7b fontFamily: 'sans-serif', padding: '2rem' \x7d\x7d>\n      <h1>Hello, React + Vite 🚀</h1>\n      <p>Edit <code>src/App.tsx</code> and save to test HMR</p>\n      <button onClick=\x7b() => setCount((c) => c + 1)\x7d>Count: \x7bcount\x7d</button>\n    </div>\n  );\n\x7d\n"

/-- `src/App.jsx` starter (plain). -/
def appJavaScript : String :=
  "import \x7b useState \x7d from 'react';\nimport './App.css';\n\nexport default function App() \x7b\n  const [count, setCount] = useState(0);\n  return (\n    <div className=\"App\" style=\x7b\x7b fontFamily: 'sans-serif', padding: '2rem' \x7d\x7d>\n      <h1>Hello, React + Vite 🚀</h1>\n      <p>Edit <code>src/App.jsx</code> and save to test HMR</p>\n      <button onClick=\x7b() => setCount((c) => c + 1)\x7d>Count: \x7bcount\x7d</button>\n    </div>\n  );\n\x7d\n"

/-- `src/App.tsx` starter (Tailwind). -/
def appTailwindTypeScript : String :=
  "import \x7b useState \x7d from 'react';\nimport './App.css';\nimport './index.css';\n\nexport default function App() \x7b\n  const [count, setCount] = useState<number>(0);\n\n  return (\n    <div className=\"min-h-screen flex items-center justify-center bg-gray-50 dark:bg-zinc-900\">\n      <div className=\"rounded-2xl shadow p-8 bg-white dark:bg-zinc-800\">\n        <h1 className=\"text-2xl font-bold tracking-tight mb-2 text-zinc-900 dark:text-zinc-50\">\n          Hello, React + Vite + Tailwind 🚀\n        </h1>\n        <p className=\"text-sm text-zinc-600 dark:text-zinc-300 mb-4\">\n          Edit <code>src/App.tsx</code> and save to test HMR\n        </p>\n        <button\n          onClick=\x7b() => setCount((c) => c + 1)\x7d\n          className=\"px-4 py-2 rounded-lg border text-sm font-medium hover:bg-zinc-50 dark:hover:bg-zinc-700\"\n        >\n          Count: \x7bcount\x7d\n        </button>\n      </div>\n    </div>\n  );\n\x7d\n"

/-- `src/App.jsx` starter (Tailwind). -/
def appTailwindJavaScript : String :=
  "import \x7b useState \x7d from 'react';\nimport './App.css';\nimport './index.css';\n\nexport default function App() \x7b\n  const [count, setCount] = useState(0);\n\n  return (\n    <div className=\"min-h-screen flex items-center justify-center bg-gray-50 dark:bg-zinc-900\">\n      <div className=\"rounded-2xl shadow p-8 bg-white dark:bg-zinc-800\">\n        <h1 className=\"text-2xl font-bold tracking-tight mb-2 text-zinc-900 dark:text-zinc-50\">\n          Hello, React + Vite + Tailwind 🚀\n        </h1>\n        <p className=\"text-sm text-zinc-600 dark:text-zinc-300 mb-4\">\n          Edit <code>src/App.jsx</code> and save to test HMR\n        </p>\n        <button\n          onClick=\x7b() => setCount((c) => c + 1)\x7d\n          className=\"px-4 py-2 rounded-lg border text-sm font-medium hover:bg-zinc-50 dark:hover:bg-zinc-700\"\n        >\n          Count: \x7bcount\x7d\n        </button>\n      </div>\n    </div>\n  );\n\x7d\n"

/-- The templated `README.md`. -/
def readme (appName packageManager : String) : String :=
  "# " ++ appName ++ "\n\n[![Code Style: Prettier](https://img.shields.io/badge/code_style-prettier-ff69b4.svg)](https://prettier.io)\n[![Linting: ESLint](https://img.shields.io/badge/linting-eslint-blue.svg)](https://eslint.org)\n\nA React + Vite starter with Prettier, ESLint, Husky, lint-staged, and VS Code settings pre-configured.\n\n## Scripts\n\n- `" ++ runScriptCmd packageManager "dev" ++ "` — Start development server\n- `" ++ runScriptCmd packageManager "build" ++ "` — Build for production\n- `" ++ runScriptCmd packageManager "preview" ++ "` — Preview production build\n- `" ++ runScriptCmd packageManager "lint" ++ "` — Run ESLint\n- `" ++ runScriptCmd packageManager "lint:fix" ++ "` — Fix ESLint issues\n- `" ++ runScriptCmd packageManager "format" ++ "` — Format code with Prettier\n"

/-- TypeScript-specific registry entries. -/
def tsTemplates (withTailwind : Bool) : List (String × String) :=
  [(".eslintrc.json", eslintrcTypeScript),
   ("src/App.tsx", if withTailwind then appTailwindTypeScript else appTypeScript)]

/-- JavaScript-specific registry entries. -/
def jsTemplates (withTailwind : Bool) : List (String × String) :=
  [(".eslintrc.json", eslintrcJavaScript),
   ("src/App.jsx", if withTailwind then appTailwindJavaScript else appJavaScript)]

/-- `getFileRegistry` from `file-registry.mjs`: the base entries followed
by the spread of the language-specific entries (no key overlaps, so the
spread is a plain append). -/
def getFileRegistry (appName packageManager : String)
    (useTypeScript withTailwind : Bool) : List (String × String) :=
  [(".prettierrc.json", prettierrcJson),
   (".prettierignore", prettierIgnore),
   (".eslintignore", eslintIgnore),
   (".vscode/settings.json", vsCodeSettings),
   ("README.md", readme appName packageManager)] ++
  (if useTypeScript then tsTemplates withTailwind else jsTemplates withTailwind)

/-- Registry lookup (JavaScript property access on the returned object). -/
def lookupReg : List (String × String) → String → Option String
  | [], _ => none
  | (k', v') :: rest, k => if k' = k then some v' else lookupReg rest k

/- ----------------------------------------------------------------- -/
/- The Tailwind vite.config.js rewrite (enableTailwind, lines 149-164) -/
/- ----------------------------------------------------------------- -/

/-- JavaScript `\s` (the ASCII portion; the rewrite's inputs contain no
exotic Unicode whitespace). -/
def isWsChar (c : Char) : Bool :=
  c = ' ' || c = '\t' || c = '\n' || c = '\r' || c = '\x0b' || c = '\x0c'

/-- Consume an exact literal. -/
def eatLit : List Char → List Char → Option (List Char)
  | [], s => some s
  | _ :: _, [] => none
  | l :: ls, c :: cs => if c = l then eatLit ls cs else none

/-- Consume `\s*` (greedy; exact here because every following literal
begins with a non-whitespace character). -/
def eatWs : List Char → List Char
  | [] => []
  | c :: cs => if isWsChar c then eatWs cs else c :: cs

/-- Match `/plugins:\s*\[\s*react\(\)\s*\]/` at the head of the input,
returning the rest of the input after the match. -/
def matchPluginsPat (s : List Char) : Option (List Char) :=
  match eatLit "plugins:".data s with
  | none => none
  | some s1 =>
    match eatLit "[".data (eatWs s1) with
    | none => none
    | some s2 =>
      match eatLit "react()".data (eatWs s2) with
      | none => none
      | some s3 => eatLit "]".data (eatWs s3)

/-- The replacement text of the `config.replace(...)` call. -/
def pluginsRepl : List Char := "plugins: [react(), tailwindcss()]".data

/-- Leftmost-match single replacement, as performed by
`String.prototype.replace` with a non-global regex; `none` when the
pattern matches nowhere. -/
def tryReplaceOnce : List Char → Option (List Char)
  | [] => none
  | c :: s =>
      match matchPluginsPat (c :: s) with
      | some rest => some (pluginsRepl ++ rest)
      | none => (tryReplaceOnce s).map (fun t => c :: t)

/-- `config.replace(/plugins:\s*\[\s*react\(\)\s*\]/, 'plugins: [react(), tailwindcss()]')`. -/
def replaceFirstPlugins (s : List Char) : List Char := (tryReplaceOnce s).getD s

/-- `haystack.includes(needle)`. -/
def containsSub (t : List Char) : List Char → Bool
  | [] => List.isPrefixOf t []
  | c :: s => List.isPrefixOf t (c :: s) || containsSub t s

/-- The import line prepended when `'@tailwindcss/vite'` is absent. -/
def importLine : List Char := "import tailwindcss from '@tailwindcss/vite';\n".data

/-- The Add-on Injector's build-config rewrite step:

    if (!config.includes('@tailwindcss/vite')) {
      config = `import tailwindcss from '@tailwindcss/vite';\n` + config;
    }
    config = config.replace(/plugins:\s*\[\s*react\(\)\s*\]/,
                            'plugins: [react(), tailwindcss()]');
-/
def tailwindViteRewrite (config : List Char) : List Char :=
  let config :=
    if containsSub "@tailwindcss/vite".data config then config
    else importLine ++ config
  replaceFirstPlugins config

/-- Number of positions at which `t` occurs as a substring. -/
def countOcc (t : List Char) : List Char → Nat
  | [] => if List.isPrefixOf t [] then 1 else 0
  | c :: s => (if List.isPrefixOf t (c :: s) then 1 else 0) + countOcc t s

/-- The plugin-invocation token whose duplication is at issue. -/
def twToken : List Char := "tailwindcss()".data

/-- The pattern's opening literal, used as an anchor for occurrences. -/
def plToken : List Char := "plugins:".data

/- ----------------------------------------------------------------- -/
/- Auxiliary predicates used by the statements and proofs             -/
/- ----------------------------------------------------------------- -/

/-- The entries of an object document. -/
def docEntries : JValue → JObj
  | .obj kvs => kvs
  | _ => []

/-- An update is stable on `d` when applying it changes nothing:
set-if-absent once the key exists, set-union once the key holds an
array containing the string (or a non-array, which the update skips). -/
def opStable (d : JObj) : MutOp → Prop
  | .setIfAbsent k _ => (getKey d k).isSome = true
  | .setUnion k s =>
      match getKey d k with
      | some (.arr xs) => containsStr xs s = true
      | some _ => True
      | none => False

/-- No two elements of the list are `SameValueZero`-equal (what a
`Set`-roundtrip guarantees). -/
def NoPrimDup (xs : List JValue) : Prop :=
  List.Pairwise (fun a b => jsPrimEq a b = false) xs

/-- Every character is whitespace. -/
def allWs (w : List Char) : Prop := ∀ c ∈ w, isWsChar c = true

/-- No occurrence of `t` starts inside `A` and spills over into `B`. -/
def NoSpan (t A B : List Char) : Prop :=
  ∀ i, i < A.length → t <+: (A.drop i ++ B) → t <+: A.drop i

/- ================================================================= -/
/- Theorems                                                          -/
/- ================================================================= -/

/- Object (association-list) lemmas -/

theorem getKey_setKey_self (d : JObj) (k : String) (v : JValue) :
    getKey (setKey d k v) k = some v := by
  induction d with
  | nil => simp [setKey, getKey]
  | cons kv rest ih =>
      obtain ⟨k', v'⟩ := kv
      by_cases h : k' = k <;> simp [setKey, getKey, h, ih]

theorem getKey_setKey_ne (d : JObj) (k k2 : String) (v : JValue) (h : k ≠ k2) :
    getKey (setKey d k v) k2 = getKey d k2 := by
  induction d with
  | nil => simp [setKey, getKey, h]
  | cons kv rest ih =>
      obtain ⟨k', v'⟩ := kv
      by_cases h' : k' = k
      · subst h'; simp [setKey, getKey, h]
      · simp [setKey, getKey, h', ih]

theorem keyIdx_setKey (d : JObj) (k k2 : String) (v : JValue) (h : k ≠ k2)
    (hk2 : (getKey d k2).isSome = true) :
    keyIdx (setKey d k v) k2 = keyIdx d k2 := by
  induction d with
  | nil => simp [getKey] at hk2
  | cons kv rest ih =>
      obtain ⟨k', v'⟩ := kv
      by_cases h' : k' = k
      · subst h'; have h2 : k' ≠ k2 := h
        simp [setKey, keyIdx, h2]
      · by_cases h2 : k' = k2
        · subst h2; simp [setKey, keyIdx, h']
        · simp [getKey, h2] at hk2
          simp [setKey, keyIdx, h', h2, ih hk2]

theorem isSome_getKey_setKey (d : JObj) (k k2 : String) (v : JValue)
    (h : (getKey d k2).isSome = true) :
    (getKey (setKey d k v) k2).isSome = true := by
  by_cases hk : k = k2
  · subst hk; simp [getKey_setKey_self]
  · rwa [getKey_setKey_ne d k k2 v hk]

theorem setKey_setKey (d : JObj) (k : String) (v v' : JValue) :
    setKey (setKey d k v) k v' = setKey d k v' := by
  induction d with
  | nil => simp [setKey]
  | cons kv rest ih =>
      obtain ⟨k', w⟩ := kv
      by_cases h : k' = k <;> simp [setKey, h, ih]

theorem setKey_of_getKey_eq (d : JObj) (k : String) (v : JValue)
    (h : getKey d k = some v) : setKey d k v = d := by
  induction d with
  | nil => simp [getKey] at h
  | cons kv rest ih =>
      obtain ⟨k', w⟩ := kv
      by_cases h' : k' = k
      · subst h'; simp [getKey] at h; simp [setKey, h]
      · simp [getKey, h'] at h
        simp [setKey, h', ih h]

/-- Claim C7: after generation, a pnpm lock file forces pnpm, else a
yarn lock file forces yarn, else the requested (or default) package
manager is used. -/
theorem lockfile_detection :
    (∀ (y : Bool) (pm : String), detectPM true y pm = "pnpm") ∧
    (∀ pm : String, detectPM false true pm = "yarn") ∧
    (∀ pm : String, detectPM false false pm = pm) :=
  ⟨fun _ _ => rfl, fun _ => rfl, fun _ => rfl⟩

/-- Claim C10: `depCmd` returns `null` for every unrecognized package
manager and for every empty dependency list, while `installCmd` and
`runScriptCmd` fall back to the npm command for unrecognized package
managers. -/
theorem pm_command_fallbacks :
    (∀ (pm : String) (deps : List String) (dev : Bool),
        pm ≠ "npm" → pm ≠ "yarn" → pm ≠ "pnpm" → depCmd pm deps dev = none) ∧
    (∀ (pm : String) (dev : Bool), depCmd pm [] dev = none) ∧
    (∀ pm : String, pm ≠ "npm" → pm ≠ "yarn" → pm ≠ "pnpm" →
        installCmd pm = installCmd "npm") ∧
    (∀ pm script : String, pm ≠ "npm" → pm ≠ "yarn" → pm ≠ "pnpm" →
        runScriptCmd pm script = runScriptCmd "npm" script) := by
  refine ⟨?_, ?_, ?_, ?_⟩ <;> intros <;>
    simp_all [depCmd, installCmd, runScriptCmd]

/-- Witness for C10 at the concrete unrecognized manager `"bun"`. -/
theorem pm_command_fallbacks_witness :
    ("bun" ≠ "npm" ∧ "bun" ≠ "yarn" ∧ "bun" ≠ "pnpm") ∧
    depCmd "bun" ["prettier"] true = none ∧
    depCmd "yarn" [] true = none ∧
    installCmd "bun" = installCmd "npm" ∧
    runScriptCmd "bun" "dev" = runScriptCmd "npm" "dev" :=
  ⟨⟨by decide, by decide, by decide⟩,
   pm_command_fallbacks.1 "bun" ["prettier"] true (by decide) (by decide) (by decide),
   pm_command_fallbacks.2.1 "yarn" true,
   pm_command_fallbacks.2.2.1 "bun" (by decide) (by decide) (by decide),
   pm_command_fallbacks.2.2.2 "bun" "dev" (by decide) (by decide) (by decide)⟩

/-- Counterexample for claim C4 as stated: under the
`bootstrap-react-vite.mjs` variant (which does not validate the option),
the unrecognized manager `"bun"` does not produce the npm
dependency-install command — it produces no command at all, so not
"every downstream package-manager command is the one that would have
been produced for npm". -/
theorem pm_fallback_counterexample :
    depCmd "bun" ["prettier"] true = none ∧
    depCmd "npm" ["prettier"] true = some "npm i -D prettier" ∧
    depCmd "bun" ["prettier"] true ≠ depCmd "npm" ["prettier"] true := by
  refine ⟨rfl, rfl, ?_⟩; decide

/-- Claim C4 (amended): invalid package-manager values never error; in
the part_000 variant `parseArgs` replaces them by the default, so every
parse result carries one of npm/yarn/pnpm; in the
`bootstrap-react-vite.mjs` variant `installCmd` and `runScriptCmd` fall
back to the npm commands but `depCmd` yields no install command. -/
theorem normalize_pm_mem (pm : String) :
    (if ["npm", "yarn", "pnpm"].contains pm then pm else "npm") = "npm" ∨
    (if ["npm", "yarn", "pnpm"].contains pm then pm else "npm") = "yarn" ∨
    (if ["npm", "yarn", "pnpm"].contains pm then pm else "npm") = "pnpm" := by
  by_cases h : pm = "npm" ∨ pm = "yarn" ∨ pm = "pnpm"
  · rcases h with h | h | h <;> subst h <;> simp
  · push_neg at h
    obtain ⟨h1, h2, h3⟩ := h
    simp [h1, h2, h3]

theorem pm_fallback_variants :
    (∀ (argv : List String) (cfg : ParsedArgs), parseArgsPart000 argv = some cfg →
        (scanOpts (argv.drop 2) "npm" false).1 ≠ "npm" →
        (scanOpts (argv.drop 2) "npm" false).1 ≠ "yarn" →
        (scanOpts (argv.drop 2) "npm" false).1 ≠ "pnpm" →
        cfg.pm = "npm") ∧
    (∀ pm : String, pm ≠ "npm" → pm ≠ "yarn" → pm ≠ "pnpm" →
        installCmd pm = installCmd "npm" ∧
        (∀ script, runScriptCmd pm script = runScriptCmd "npm" script) ∧
        (∀ deps dev, depCmd pm deps dev = none)) := by
  constructor
  · intro argv cfg h h1 h2 h3
    unfold parseArgsPart000 at h
    split at h
    · exact absurd h (by simp)
    · simp only [Option.some.injEq] at h
      subst h
      simp [h1, h2, h3]
  · intro pm h1 h2 h3
    exact ⟨by simp [installCmd, h1, h2, h3],
           fun script => by simp [runScriptCmd, h1, h2, h3],
           fun deps dev => by by_cases hd : deps.isEmpty <;> simp [depCmd, h1, h2, h3, hd]⟩

/-- Witness for C4 (amended): a concrete invocation with the invalid
value `--pm bun` parses to the default manager npm, and the
main-variant fallbacks at `"bun"`. -/
theorem pm_fallback_variants_witness :
    parseArgsPart000 ["my-app", "react", "--pm", "bun"] =
      some ⟨"my-app", "react", "npm", false⟩ ∧
    ((scanOpts (["my-app", "react", "--pm", "bun"].drop 2) "npm" false).1 = "bun" ∧
      "bun" ≠ "npm" ∧ "bun" ≠ "yarn" ∧ "bun" ≠ "pnpm") ∧
    (⟨"my-app", "react", "npm", false⟩ : ParsedArgs).pm = "npm" ∧
    ("bun" ≠ "npm" ∧ installCmd "bun" = installCmd "npm" ∧
      runScriptCmd "bun" "dev" = runScriptCmd "npm" "dev" ∧
      depCmd "bun" ["prettier"] true = none) := by
  refine ⟨by decide, ⟨by decide, by decide, by decide, by decide⟩, ?_, by decide, ?_, ?_, ?_⟩
  · exact pm_fallback_variants.1 ["my-app", "react", "--pm", "bun"]
      ⟨"my-app", "react", "npm", false⟩ (by decide) (by decide) (by decide) (by decide)
  · exact (pm_fallback_variants.2 "bun" (by decide) (by decide) (by decide)).1
  · exact (pm_fallback_variants.2 "bun" (by decide) (by decide) (by decide)).2.1 "dev"
  · exact (pm_fallback_variants.2 "bun" (by decide) (by decide) (by decide)).2.2 ["prettier"] true

/-- Claim C8: `upsertJSON` supports both callback styles — a returned
document (an object, hence truthy) replaces the input entirely, while a
callback returning nothing makes the engine keep the (possibly in-place
mutated) input document. -/
theorem upsert_mutate_styles (file : Option JValue)
    (m : JValue → JValue × Option JValue) :
    (∀ (d' : JValue) (kvs : JObj), m (file.getD (.obj [])) = (d', some (.obj kvs)) →
        upsertJSONDoc file m = .obj kvs) ∧
    (∀ d' : JValue, m (file.getD (.obj [])) = (d', none) →
        upsertJSONDoc file m = d') := by
  constructor
  · intro d' kvs h
    simp [upsertJSONDoc, h, jsTruthy]
  · intro d' h
    simp [upsertJSONDoc, h]

/-- Witness for C8: one callback of each style applied to an absent
file. -/
theorem upsert_mutate_styles_witness :
    (fun v => (v, some (JValue.obj [("a", JValue.null)]))) (Option.getD none (.obj []))
        = (JValue.obj [], some (JValue.obj [("a", JValue.null)])) ∧
    upsertJSONDoc none (fun v => (v, some (JValue.obj [("a", JValue.null)])))
        = JValue.obj [("a", JValue.null)] ∧
    (fun v => (v, (none : Option JValue))) (Option.getD none (.obj []))
        = (JValue.obj [], (none : Option JValue)) ∧
    upsertJSONDoc none (fun v => (v, (none : Option JValue))) = JValue.obj [] :=
  ⟨rfl,
   (upsert_mutate_styles none _).1 (JValue.obj []) [("a", JValue.null)] rfl,
   rfl,
   (upsert_mutate_styles none _).2 (JValue.obj []) rfl⟩

/- Stability of set-if-absent / set-union updates (for C1, C2) -/

theorem getKey_applyOp (d : JObj) (op : MutOp) (k : String) :
    getKey (applyOp d op) k = getKey d k ∨
    (∃ xs s', getKey d k = some (.arr xs) ∧
        getKey (applyOp d op) k = some (.arr (xs ++ [.str s']))) ∨
    getKey d k = none := by
  cases op with
  | setIfAbsent k' v =>
      by_cases hp : (getKey d k').isSome
      · left; simp [applyOp, hp]
      · by_cases hk : k' = k
        · subst hk
          right; right
          cases hgk : getKey d k' with
          | none => rfl
          | some w => simp [hgk] at hp
        · left; simp [applyOp, hp, getKey_setKey_ne d k' k v hk]
  | setUnion k' s =>
      by_cases hk : k' = k
      · subst hk
        cases hgk : getKey d k' with
        | none => right; right; rfl
        | some w =>
            cases w with
            | arr xs =>
                by_cases hc : containsStr xs s
                · left; simp [applyOp, hgk, hc]
                · right; left
                  exact ⟨xs, s, rfl, by simp [applyOp, hgk, hc, getKey_setKey_self]⟩
            | null => left; simp [applyOp, hgk]
            | bool b => left; simp [applyOp, hgk]
            | num n => left; simp [applyOp, hgk]
            | str t => left; simp [applyOp, hgk]
            | obj kvs => left; simp [applyOp, hgk]
      · left
        cases hgk : getKey d k' with
        | none => simp [applyOp, hgk, getKey_setKey_ne d k' k _ hk]
        | some w =>
            cases w with
            | arr xs =>
                by_cases hc : containsStr xs s
                · simp [applyOp, hgk, hc]
                · simp [applyOp, hgk, hc, getKey_setKey_ne d k' k _ hk]
            | null => simp [applyOp, hgk]
            | bool b => simp [applyOp, hgk]
            | num n => simp [applyOp, hgk]
            | str t => simp [applyOp, hgk]
            | obj kvs => simp [applyOp, hgk]

theorem applyOp_of_opStable (d : JObj) (op : MutOp) (h : opStable d op) :
    applyOp d op = d := by
  cases op with
  | setIfAbsent k v => simp only [opStable] at h; simp [applyOp, h]
  | setUnion k s =>
      cases hgk : getKey d k with
      | none => simp [opStable, hgk] at h
      | some w =>
          cases w with
          | arr xs =>
              simp only [opStable, hgk] at h
              simp [applyOp, hgk, h]
          | null => simp [applyOp, hgk]
          | bool b => simp [applyOp, hgk]
          | num n => simp [applyOp, hgk]
          | str t => simp [applyOp, hgk]
          | obj kvs => simp [applyOp, hgk]

theorem opStable_applyOp_self (d : JObj) (op : MutOp) :
    opStable (applyOp d op) op := by
  cases op with
  | setIfAbsent k v =>
      by_cases hp : (getKey d k).isSome
      · simp [applyOp, hp, opStable]
      · simp [applyOp, hp, opStable, getKey_setKey_self]
  | setUnion k s =>
      cases hgk : getKey d k with
      | none =>
          simp [applyOp, hgk, opStable, getKey_setKey_self, containsStr]
      | some w =>
          cases w with
          | arr xs =>
              by_cases hc : containsStr xs s
              · simp [applyOp, hgk, hc, opStable]
              · simp only [applyOp, hgk]
                rw [if_neg hc]
                simp [opStable, getKey_setKey_self, containsStr, List.any_append]
          | null => simp [applyOp, hgk, opStable]
          | bool b => simp [applyOp, hgk, opStable]
          | num n => simp [applyOp, hgk, opStable]
          | str t => simp [applyOp, hgk, opStable]
          | obj kvs => simp [applyOp, hgk, opStable]

theorem opStable_mono (d : JObj) (op1 op2 : MutOp) (h : opStable d op1) :
    opStable (applyOp d op2) op1 := by
  cases op1 with
  | setIfAbsent k v =>
      simp only [opStable] at h ⊢
      rcases getKey_applyOp d op2 k with heq | ⟨xs, s', h1, h2⟩ | hnone
      · rwa [heq]
      · simp [h2]
      · simp [hnone] at h
  | setUnion k s =>
      simp only [opStable] at h ⊢
      rcases getKey_applyOp d op2 k with heq | ⟨xs, s', h1, h2⟩ | hnone
      · rwa [heq]
      · rw [h1] at h
        rw [h2]
        simp only [containsStr, List.any_append] at h ⊢
        simp [h]
      · rw [hnone] at h; exact h.elim

theorem opStable_applyMut (d : JObj) (ops : List MutOp) (op : MutOp)
    (h : opStable d op) : opStable (applyMut ops d) op := by
  induction ops generalizing d with
  | nil => exact h
  | cons o os ih => exact ih (applyOp d o) (opStable_mono d op o h)

theorem all_opStable_applyMut (ops : List MutOp) (d : JObj) :
    ∀ op ∈ ops, opStable (applyMut ops d) op := by
  induction ops generalizing d with
  | nil => intro op hop; cases hop
  | cons o os ih =>
      intro op hop
      rcases List.mem_cons.1 hop with h | h
      · subst h
        exact opStable_applyMut (applyOp d op) os op (opStable_applyOp_self d op)
      · exact ih (applyOp d o) op h

theorem applyMut_of_all_opStable (ops : List MutOp) (d : JObj)
    (h : ∀ op ∈ ops, opStable d op) : applyMut ops d = d := by
  induction ops with
  | nil => rfl
  | cons o os ih =>
      have h1 : applyOp d o = d := applyOp_of_opStable d o (h o (List.mem_cons_self o os))
      show applyMut os (applyOp d o) = d
      rw [h1]
      exact ih fun op hop => h op (List.mem_cons_of_mem o hop)

theorem applyMut_idem (ops : List MutOp) (d : JObj) :
    applyMut ops (applyMut ops d) = applyMut ops d :=
  applyMut_of_all_opStable ops _ (all_opStable_applyMut ops d)

/-- Claim C1: running `upsertJSON` twice in a row with the same
mutation made of set-if-absent and set-union updates writes a file
after the second call byte-identical to the file after the first
call. -/
theorem json_overlay_idempotent (ops : List MutOp) (file : Option JValue)
    (h : file = none ∨ ∃ d, file = some (.obj d)) :
    jsonFileBytes (upsertJSONDoc (some (upsertJSONDoc file (mutFromOps ops)))
        (mutFromOps ops)) =
      jsonFileBytes (upsertJSONDoc file (mutFromOps ops)) := by
  have key : ∀ d : JObj,
      upsertJSONDoc (some (.obj d)) (mutFromOps ops) = .obj (applyMut ops d) := by
    intro d; simp [upsertJSONDoc, mutFromOps, jsTruthy]
  rcases h with h | ⟨d, h⟩ <;> subst h
  · have h0 : upsertJSONDoc none (mutFromOps ops) = .obj (applyMut ops []) := by
      simp [upsertJSONDoc, mutFromOps, jsTruthy]
    rw [h0, key, applyMut_idem]
  · rw [key, key, applyMut_idem]

/-- Witness for C1: a present file with one existing key, a
set-if-absent plus a set-union update. -/
theorem json_overlay_idempotent_witness :
    ((some (JValue.obj [("a", .str "x")]) : Option JValue) = none ∨
      ∃ d, (some (JValue.obj [("a", .str "x")]) : Option JValue) = some (.obj d)) ∧
    jsonFileBytes (upsertJSONDoc
        (some (upsertJSONDoc (some (.obj [("a", .str "x")]))
          (mutFromOps [.setIfAbsent "b" (.num 1), .setUnion "plugins" "p"])))
        (mutFromOps [.setIfAbsent "b" (.num 1), .setUnion "plugins" "p"])) =
      jsonFileBytes (upsertJSONDoc (some (.obj [("a", .str "x")]))
        (mutFromOps [.setIfAbsent "b" (.num 1), .setUnion "plugins" "p"])) :=
  ⟨Or.inr ⟨_, rfl⟩,
   json_overlay_idempotent [.setIfAbsent "b" (.num 1), .setUnion "plugins" "p"]
     (some (.obj [("a", .str "x")])) (Or.inr ⟨_, rfl⟩)⟩

/- Frame lemmas (for C2) -/

theorem applyOp_frame (d : JObj) (op : MutOp) (K : String)
    (h : opKeyOf op ≠ K) :
    getKey (applyOp d op) K = getKey d K ∧
    ((getKey d K).isSome = true → keyIdx (applyOp d op) K = keyIdx d K) := by
  cases op with
  | setIfAbsent k v =>
      simp only [opKeyOf] at h
      by_cases hp : (getKey d k).isSome
      · simp [applyOp, hp]
      · constructor
        · simp [applyOp, hp, getKey_setKey_ne d k K v h]
        · intro hs; simp [applyOp, hp, keyIdx_setKey d k K v h hs]
  | setUnion k s =>
      simp only [opKeyOf] at h
      cases hgk : getKey d k with
      | none =>
          constructor
          · simp [applyOp, hgk, getKey_setKey_ne d k K _ h]
          · intro hs; simp [applyOp, hgk, keyIdx_setKey d k K _ h hs]
      | some w =>
          cases w with
          | arr xs =>
              by_cases hc : containsStr xs s
              · simp [applyOp, hgk, hc]
              · constructor
                · simp [applyOp, hgk, hc, getKey_setKey_ne d k K _ h]
                · intro hs; simp [applyOp, hgk, hc, keyIdx_setKey d k K _ h hs]
          | null => simp [applyOp, hgk]
          | bool b => simp [applyOp, hgk]
          | num n => simp [applyOp, hgk]
          | str t => simp [applyOp, hgk]
          | obj kvs => simp [applyOp, hgk]

theorem applyMut_frame (ops : List MutOp) (d : JObj) (K : String)
    (hT : K ∉ opsKeys ops) :
    getKey (applyMut ops d) K = getKey d K ∧
    ((getKey d K).isSome = true → keyIdx (applyMut ops d) K = keyIdx d K) := by
  induction ops generalizing d with
  | nil => exact ⟨rfl, fun _ => rfl⟩
  | cons o os ih =>
      have hko : opKeyOf o ≠ K := by
        intro hk; exact hT (by simp [opsKeys, hk])
      have hT' : K ∉ opsKeys os := by
        intro hk; exact hT (by simp [opsKeys] at hk ⊢; right; exact hk)
      have step := applyOp_frame d o K hko
      have rest := ih (applyOp d o) hT'
      constructor
      · show getKey (applyMut os (applyOp d o)) K = getKey d K
        rw [rest.1, step.1]
      · intro hs
        show keyIdx (applyMut os (applyOp d o)) K = keyIdx d K
        have hs' : (getKey (applyOp d o) K).isSome = true := by rw [step.1]; exact hs
        rw [rest.2 hs', step.2 hs]

/- Enumeration-order lemmas (for C2) -/

theorem keyIdx_append_of_present (A B : JObj) (K : String)
    (h : (getKey A K).isSome = true) : keyIdx (A ++ B) K = keyIdx A K := by
  induction A with
  | nil => simp [getKey] at h
  | cons kv rest ih =>
      obtain ⟨k', v'⟩ := kv
      by_cases hk : k' = K
      · simp [keyIdx, hk]
      · simp only [getKey, if_neg hk] at h
        simp [keyIdx, hk, ih h]

theorem keyIdx_cons (k' : String) (v' : JValue) (rest : JObj) (K : String) :
    keyIdx ((k', v') :: rest) K = if k' = K then 0 else keyIdx rest K + 1 := rfl

theorem keyIdx_append_of_absent (A B : JObj) (K : String)
    (h : ∀ kv ∈ A, kv.1 ≠ K) : keyIdx (A ++ B) K = A.length + keyIdx B K := by
  induction A with
  | nil => simp
  | cons kv rest ih =>
      obtain ⟨k', v'⟩ := kv
      have hk : k' ≠ K := h (k', v') (List.mem_cons_self _ _)
      have ih' := ih fun kv hkv => h kv (List.mem_cons_of_mem _ hkv)
      rw [List.cons_append, keyIdx_cons, if_neg hk, ih', List.length_cons]
      omega

theorem sortByKeyNum_cons (p : String × JValue) (L : JObj) :
    sortByKeyNum (p :: L) = insertByKeyNum p (sortByKeyNum L) := rfl

theorem length_insertByKeyNum (p : String × JValue) (L : JObj) :
    (insertByKeyNum p L).length = L.length + 1 := by
  induction L with
  | nil => rfl
  | cons q rest ih =>
      unfold insertByKeyNum
      split
      · simp
      · simp [ih]

theorem length_sortByKeyNum (L : JObj) : (sortByKeyNum L).length = L.length := by
  induction L with
  | nil => rfl
  | cons p rest ih =>
      rw [sortByKeyNum_cons, length_insertByKeyNum, ih, List.length_cons]

theorem mem_insertByKeyNum (p q : String × JValue) (L : JObj) :
    q ∈ insertByKeyNum p L ↔ q = p ∨ q ∈ L := by
  induction L with
  | nil => simp [insertByKeyNum]
  | cons r rest ih =>
      unfold insertByKeyNum
      split
      · simp [List.mem_cons]
      · simp only [List.mem_cons, ih]
        tauto

theorem mem_sortByKeyNum (q : String × JValue) (L : JObj) :
    q ∈ sortByKeyNum L ↔ q ∈ L := by
  induction L with
  | nil => simp [sortByKeyNum]
  | cons p rest ih =>
      rw [sortByKeyNum_cons, mem_insertByKeyNum, ih, List.mem_cons]

theorem isSome_getKey_iff_mem (L : JObj) (K : String) :
    (getKey L K).isSome = true ↔ ∃ kv ∈ L, kv.1 = K := by
  induction L with
  | nil => simp [getKey]
  | cons kv rest ih =>
      obtain ⟨k', v'⟩ := kv
      by_cases hk : k' = K
      · constructor
        · intro _; exact ⟨(k', v'), List.mem_cons_self _ _, hk⟩
        · intro _; simp [getKey, hk]
      · rw [show getKey ((k', v') :: rest) K = getKey rest K by simp [getKey, hk], ih]
        constructor
        · rintro ⟨kv, hkv, hkk⟩
          exact ⟨kv, List.mem_cons_of_mem _ hkv, hkk⟩
        · rintro ⟨kv, hkv, hkk⟩
          rcases List.mem_cons.1 hkv with h' | h'
          · subst h'; exact absurd hkk hk
          · exact ⟨kv, h', hkk⟩

theorem getKey_filter_isSome (d : JObj) (K : String) (p : String → Bool)
    (hp : p K = true) (h : (getKey d K).isSome = true) :
    (getKey (d.filter fun kv => p kv.1) K).isSome = true := by
  rw [isSome_getKey_iff_mem] at h ⊢
  obtain ⟨kv, hkv, hkk⟩ := h
  refine ⟨kv, ?_, hkk⟩
  rw [List.mem_filter]
  exact ⟨hkv, by rw [hkk]; exact hp⟩

theorem filter_int_setKey (d : JObj) (k : String) (v : JValue)
    (hk : isArrayIndexKey k = false) :
    (setKey d k v).filter (fun kv => isArrayIndexKey kv.1)
      = d.filter (fun kv => isArrayIndexKey kv.1) := by
  induction d with
  | nil => simp [setKey, List.filter, hk]
  | cons kv rest ih =>
      obtain ⟨k', v'⟩ := kv
      by_cases h' : k' = k
      · subst h'
        simp [setKey, List.filter, hk]
      · by_cases hb : isArrayIndexKey k' = true <;>
          simp [setKey, h', List.filter, hb, ih]

theorem filter_int_applyOp (d : JObj) (op : MutOp)
    (hk : isArrayIndexKey (opKeyOf op) = false) :
    (applyOp d op).filter (fun kv => isArrayIndexKey kv.1)
      = d.filter (fun kv => isArrayIndexKey kv.1) := by
  cases op with
  | setIfAbsent k v =>
      simp only [opKeyOf] at hk
      by_cases hp : (getKey d k).isSome
      · simp [applyOp, hp]
      · simp [applyOp, hp, filter_int_setKey d k v hk]
  | setUnion k s =>
      simp only [opKeyOf] at hk
      cases hgk : getKey d k with
      | none => simp [applyOp, hgk, filter_int_setKey d k _ hk]
      | some w =>
          cases w with
          | arr xs =>
              by_cases hc : containsStr xs s
              · simp [applyOp, hgk, hc]
              · simp only [applyOp, hgk]
                rw [if_neg hc]
                exact filter_int_setKey d k _ hk
          | null => simp [applyOp, hgk]
          | bool b => simp [applyOp, hgk]
          | num n => simp [applyOp, hgk]
          | str t => simp [applyOp, hgk]
          | obj kvs => simp [applyOp, hgk]

theorem filter_int_applyMut (ops : List MutOp) (d : JObj)
    (hIdx : ∀ op ∈ ops, isArrayIndexKey (opKeyOf op) = false) :
    (applyMut ops d).filter (fun kv => isArrayIndexKey kv.1)
      = d.filter (fun kv => isArrayIndexKey kv.1) := by
  induction ops generalizing d with
  | nil => rfl
  | cons o os ih =>
      show (applyMut os (applyOp d o)).filter _ = _
      rw [ih (applyOp d o) fun op hop => hIdx op (List.mem_cons_of_mem o hop),
          filter_int_applyOp d o (hIdx o (List.mem_cons_self o os))]

theorem keyIdx_filter_setKey (d : JObj) (k K : String) (v : JValue) (hne : k ≠ K)
    (hKn : isArrayIndexKey K = false) (hK : (getKey d K).isSome = true) :
    keyIdx ((setKey d k v).filter (fun kv => !isArrayIndexKey kv.1)) K
      = keyIdx (d.filter (fun kv => !isArrayIndexKey kv.1)) K := by
  induction d with
  | nil => simp [getKey] at hK
  | cons kv rest ih =>
      obtain ⟨k', v'⟩ := kv
      by_cases h' : k' = k
      · subst h'
        have hk'K : k' ≠ K := hne
        by_cases hb : isArrayIndexKey k' = true
        · simp [setKey, List.filter, hb]
        · have hb' : isArrayIndexKey k' = false := by
            cases hx : isArrayIndexKey k'
            · rfl
            · exact absurd hx hb
          simp [setKey, List.filter, hb', keyIdx, hk'K]
      · by_cases hkK : k' = K
        · subst hkK
          have hb' : isArrayIndexKey k' = false := hKn
          simp [setKey, h', List.filter, hb', keyIdx]
        · simp only [getKey, if_neg hkK] at hK
          by_cases hb : isArrayIndexKey k' = true <;>
            simp [setKey, h', List.filter, hb, keyIdx, hkK, ih hK]

theorem keyIdx_filter_applyOp (d : JObj) (op : MutOp) (K : String)
    (hne : opKeyOf op ≠ K) (hKn : isArrayIndexKey K = false)
    (hK : (getKey d K).isSome = true) :
    keyIdx ((applyOp d op).filter (fun kv => !isArrayIndexKey kv.1)) K
      = keyIdx (d.filter (fun kv => !isArrayIndexKey kv.1)) K := by
  cases op with
  | setIfAbsent k v =>
      simp only [opKeyOf] at hne
      by_cases hp : (getKey d k).isSome
      · simp [applyOp, hp]
      · simp [applyOp, hp, keyIdx_filter_setKey d k K v hne hKn hK]
  | setUnion k s =>
      simp only [opKeyOf] at hne
      cases hgk : getKey d k with
      | none => simp [applyOp, hgk, keyIdx_filter_setKey d k K _ hne hKn hK]
      | some w =>
          cases w with
          | arr xs =>
              by_cases hc : containsStr xs s
              · simp [applyOp, hgk, hc]
              · simp only [applyOp, hgk]
                rw [if_neg hc]
                exact keyIdx_filter_setKey d k K _ hne hKn hK
          | null => simp [applyOp, hgk]
          | bool b => simp [applyOp, hgk]
          | num n => simp [applyOp, hgk]
          | str t => simp [applyOp, hgk]
          | obj kvs => simp [applyOp, hgk]

theorem keyIdx_filter_applyMut (ops : List MutOp) (d : JObj) (K : String)
    (hT : K ∉ opsKeys ops) (hKn : isArrayIndexKey K = false)
    (hK : (getKey d K).isSome = true) :
    keyIdx ((applyMut ops d).filter (fun kv => !isArrayIndexKey kv.1)) K
      = keyIdx (d.filter (fun kv => !isArrayIndexKey kv.1)) K := by
  induction ops generalizing d with
  | nil => rfl
  | cons o os ih =>
      have hko : opKeyOf o ≠ K := by
        intro hk; exact hT (by simp [opsKeys, hk])
      have hT' : K ∉ opsKeys os := by
        intro hk; exact hT (by simp [opsKeys] at hk ⊢; right; exact hk)
      have hK' : (getKey (applyOp d o) K).isSome = true := by
        rw [(applyOp_frame d o K hko).1]; exact hK
      show keyIdx ((applyMut os (applyOp d o)).filter _) K = _
      rw [ih (applyOp d o) hT' hK', keyIdx_filter_applyOp d o K hko hKn hK]

theorem keyIdx_jsOrder_nonInt (d : JObj) (K : String)
    (hKn : isArrayIndexKey K = false) :
    keyIdx (jsOrder d) K
      = (d.filter (fun kv => isArrayIndexKey kv.1)).length
        + keyIdx (d.filter (fun kv => !isArrayIndexKey kv.1)) K := by
  unfold jsOrder
  rw [keyIdx_append_of_absent, length_sortByKeyNum]
  intro kv hkv hkk
  have hmem := (mem_sortByKeyNum kv _).1 hkv
  have hint : isArrayIndexKey kv.1 = true := (List.mem_filter.1 hmem).2
  rw [hkk, hKn] at hint
  exact absurd hint (by simp)

/-- Counterexample for claim C2 as stated: a set-if-absent of the
integer-like key `"0"` (not referencing `"b"`) moves the untouched key
`"b"` from serialized key position 0 to position 1, because JavaScript
enumerates array-index keys first. -/
theorem json_overlay_frame_counterexample :
    getKey (docEntries (upsertJSONDoc (some (.obj [("b", JValue.str "v")]))
        (mutFromOps [.setIfAbsent "0" JValue.null]))) "b"
      = getKey [("b", JValue.str "v")] "b" ∧
    keyIdx (jsOrder (docEntries (upsertJSONDoc (some (.obj [("b", JValue.str "v")]))
        (mutFromOps [.setIfAbsent "0" JValue.null])))) "b" = 1 ∧
    keyIdx (jsOrder [("b", JValue.str "v")]) "b" = 0 ∧
    (1 : Nat) ≠ 0 :=
  ⟨rfl, rfl, rfl, by decide⟩

/-- Claim C2 (amended): a key the mutation does not reference survives
`upsertJSON` with the same value; and it keeps its key position in
the enumeration (serialization) order provided none of the keys the
mutation references is an integer-like (array-index) key — JavaScript
enumerates such keys first, so introducing one shifts the positions of
later keys. -/
theorem json_overlay_frame_amended (ops : List MutOp) (d : JObj) (K : String)
    (hK : (getKey d K).isSome = true) (hT : K ∉ opsKeys ops)
    (hIdx : ∀ op ∈ ops, isArrayIndexKey (opKeyOf op) = false) :
    getKey (docEntries (upsertJSONDoc (some (.obj d)) (mutFromOps ops))) K
        = getKey d K ∧
    keyIdx (jsOrder (docEntries (upsertJSONDoc (some (.obj d)) (mutFromOps ops)))) K
        = keyIdx (jsOrder d) K := by
  have key : docEntries (upsertJSONDoc (some (.obj d)) (mutFromOps ops))
      = applyMut ops d := by
    simp [upsertJSONDoc, mutFromOps, jsTruthy, docEntries]
  rw [key]
  refine ⟨(applyMut_frame ops d K hT).1, ?_⟩
  have hint : (applyMut ops d).filter (fun kv => isArrayIndexKey kv.1)
      = d.filter (fun kv => isArrayIndexKey kv.1) := filter_int_applyMut ops d hIdx
  by_cases hKn : isArrayIndexKey K = true
  · have hpres : (getKey (sortByKeyNum
        (d.filter (fun kv => isArrayIndexKey kv.1))) K).isSome = true := by
      rw [isSome_getKey_iff_mem]
      obtain ⟨kv, hkv, hkk⟩ := (isSome_getKey_iff_mem d K).1 hK
      refine ⟨kv, (mem_sortByKeyNum kv _).2 ?_, hkk⟩
      rw [List.mem_filter]
      exact ⟨hkv, by rw [hkk]; exact hKn⟩
    unfold jsOrder
    rw [hint, keyIdx_append_of_present _ _ _ hpres,
        keyIdx_append_of_present _ _ _ hpres]
  · have hKn' : isArrayIndexKey K = false := by
      cases hx : isArrayIndexKey K
      · rfl
      · exact absurd hx hKn
    rw [keyIdx_jsOrder_nonInt _ _ hKn', keyIdx_jsOrder_nonInt _ _ hKn', hint,
        keyIdx_filter_applyMut ops d K hT hKn' hK]

/-- Witness for C2 (amended): the untouched key `"keep"` survives a
mutation touching only other, non-integer-like keys. -/
theorem json_overlay_frame_amended_witness :
    (getKey [("keep", JValue.str "v"), ("n", JValue.num 0)] "keep").isSome = true ∧
    "keep" ∉ opsKeys [.setIfAbsent "n" (.str "d"), .setUnion "plugins" "p"] ∧
    (∀ op ∈ ([.setIfAbsent "n" (.str "d"), .setUnion "plugins" "p"] : List MutOp),
      isArrayIndexKey (opKeyOf op) = false) ∧
    getKey (docEntries (upsertJSONDoc
        (some (.obj [("keep", JValue.str "v"), ("n", JValue.num 0)]))
        (mutFromOps [.setIfAbsent "n" (.str "d"), .setUnion "plugins" "p"]))) "keep"
      = getKey [("keep", JValue.str "v"), ("n", JValue.num 0)] "keep" ∧
    keyIdx (jsOrder (docEntries (upsertJSONDoc
        (some (.obj [("keep", JValue.str "v"), ("n", JValue.num 0)]))
        (mutFromOps [.setIfAbsent "n" (.str "d"), .setUnion "plugins" "p"])))) "keep"
      = keyIdx (jsOrder [("keep", JValue.str "v"), ("n", JValue.num 0)]) "keep" := by
  have h1 : (getKey [("keep", JValue.str "v"), ("n", JValue.num 0)] "keep").isSome
      = true := rfl
  have h2 : "keep" ∉ opsKeys [.setIfAbsent "n" (.str "d"), .setUnion "plugins" "p"] := by
    simp [opsKeys, opKeyOf]
  have h3 : ∀ op ∈ ([.setIfAbsent "n" (.str "d"), .setUnion "plugins" "p"] : List MutOp),
      isArrayIndexKey (opKeyOf op) = false := by decide
  exact ⟨h1, h2, h3,
    (json_overlay_frame_amended _ _ "keep" h1 h2 h3).1,
    (json_overlay_frame_amended _ _ "keep" h1 h2 h3).2⟩

/- Set-semantics lemmas (for C6) -/

theorem jsPrimEq_eq {a b : JValue} (h : jsPrimEq a b = true) : a = b := by
  cases a <;> cases b <;> simp_all [jsPrimEq]

theorem jsPrimEq_refl_str (s : String) : jsPrimEq (.str s) (.str s) = true := by
  simp [jsPrimEq]

theorem any_jsPrimEq_of (S : List JValue) (v w : JValue) (hw : w ∈ S)
    (hweq : jsPrimEq w v = true) : S.any (fun u => jsPrimEq u v) = true :=
  List.any_eq_true.2 ⟨w, hw, by simpa using hweq⟩

theorem exists_of_any_jsPrimEq (S : List JValue) (v : JValue)
    (h : S.any (fun u => jsPrimEq u v) = true) : ∃ w ∈ S, jsPrimEq w v = true := by
  obtain ⟨w, hw, hweq⟩ := List.any_eq_true.1 h
  exact ⟨w, hw, by simpa using hweq⟩

theorem mem_setInsert_self (S : List JValue) (v : JValue) : v ∈ setInsert S v := by
  by_cases h : S.any (fun w => jsPrimEq w v) = true
  · obtain ⟨w, hw, hweq⟩ := exists_of_any_jsPrimEq S v h
    have hwv := jsPrimEq_eq hweq
    subst hwv
    simpa [setInsert, h] using hw
  · simp [setInsert, h]

theorem mem_setInsert_of_mem (S : List JValue) (v x : JValue) (h : x ∈ S) :
    x ∈ setInsert S v := by
  unfold setInsert; split
  · exact h
  · exact List.mem_append_left _ h

theorem setInsert_of_mem (S : List JValue) (v : JValue)
    (hv : ∃ w ∈ S, jsPrimEq w v = true) : setInsert S v = S := by
  obtain ⟨w, hw, hweq⟩ := hv
  simp [setInsert, any_jsPrimEq_of S v w hw hweq]

theorem mem_foldl_setInsert (xs acc : List JValue) (x : JValue)
    (h : x ∈ acc) : x ∈ xs.foldl setInsert acc := by
  induction xs generalizing acc with
  | nil => exact h
  | cons a as ih => exact ih (setInsert acc a) (mem_setInsert_of_mem acc a x h)

theorem mem_foldl_setInsert_of_mem_list (xs : List JValue) :
    ∀ (acc : List JValue) (x : JValue), x ∈ xs → x ∈ xs.foldl setInsert acc := by
  induction xs with
  | nil => intro acc x h; cases h
  | cons a as ih =>
      intro acc x h
      rcases List.mem_cons.1 h with h' | h'
      · subst h'
        exact mem_foldl_setInsert as (setInsert acc x) x (mem_setInsert_self acc x)
      · exact ih (setInsert acc a) x h'

theorem mem_setFromList (xs : List JValue) (x : JValue) (h : x ∈ xs) :
    x ∈ setFromList xs :=
  mem_foldl_setInsert_of_mem_list xs [] x h

theorem noPrimDup_setInsert (S : List JValue) (v : JValue) (h : NoPrimDup S) :
    NoPrimDup (setInsert S v) := by
  unfold setInsert; split
  · exact h
  · next hany =>
      unfold NoPrimDup at h ⊢
      rw [List.pairwise_append]
      refine ⟨h, List.pairwise_singleton _ _, ?_⟩
      intro a ha b hb
      simp only [List.mem_singleton] at hb
      rw [hb]
      cases hpe : jsPrimEq a v
      · rfl
      · exact absurd (any_jsPrimEq_of S v a ha hpe) hany

theorem noPrimDup_foldl (xs acc : List JValue) (h : NoPrimDup acc) :
    NoPrimDup (xs.foldl setInsert acc) := by
  induction xs generalizing acc with
  | nil => exact h
  | cons a as ih => exact ih (setInsert acc a) (noPrimDup_setInsert acc a h)

theorem noPrimDup_setFromList (xs : List JValue) : NoPrimDup (setFromList xs) :=
  noPrimDup_foldl xs [] List.Pairwise.nil

theorem foldl_setInsert_of_noPrimDup (S : List JValue) :
    ∀ acc, NoPrimDup (acc ++ S) → S.foldl setInsert acc = acc ++ S := by
  induction S with
  | nil => intro acc _; simp
  | cons a S' ih =>
      intro acc h
      have hnone : acc.any (fun w => jsPrimEq w a) = false := by
        rw [List.any_eq_false]
        intro w hw
        have hf := (List.pairwise_append.1 h).2.2 w hw a (List.mem_cons_self a S')
        simp [hf]
      have hins : setInsert acc a = acc ++ [a] := by simp [setInsert, hnone]
      show S'.foldl setInsert (setInsert acc a) = acc ++ a :: S'
      rw [hins]
      have h' : NoPrimDup ((acc ++ [a]) ++ S') := by
        have : (acc ++ [a]) ++ S' = acc ++ a :: S' := by simp
        rw [this]; exact h
      rw [ih (acc ++ [a]) h']
      simp

theorem setFromList_of_noPrimDup (S : List JValue) (h : NoPrimDup S) :
    setFromList S = S := by
  have := foldl_setInsert_of_noPrimDup S [] (by simpa using h)
  simpa [setFromList] using this

theorem countP_le_one_of_noPrimDup (S : List JValue) (p : JValue)
    (hrefl : jsPrimEq p p = true) (h : NoPrimDup S) :
    S.countP (fun w => jsPrimEq w p) ≤ 1 := by
  induction S with
  | nil => simp
  | cons a S' ih =>
      rw [List.countP_cons]
      rcases List.pairwise_cons.1 h with ⟨ha, h'⟩
      by_cases hap : jsPrimEq a p = true
      · have hae : a = p := jsPrimEq_eq hap
        have hz : S'.countP (fun w => jsPrimEq w p) = 0 := by
          rw [List.countP_eq_zero]
          intro b hb hbp
          have hbe : b = p := jsPrimEq_eq (by simpa using hbp)
          have hfalse := ha b hb
          rw [hbe, hae] at hfalse
          exact absurd hrefl (by simp [hfalse])
        simp [hz, hap]
      · rw [if_neg hap]
        simpa using ih h'

theorem countP_setInsert_target (S : List JValue) (p : String)
    (hd : NoPrimDup S) :
    (setInsert S (.str p)).countP (fun w => jsPrimEq w (.str p)) = 1 := by
  unfold setInsert; split
  · next hany =>
      obtain ⟨w, hw, hweq⟩ := exists_of_any_jsPrimEq S (.str p) hany
      have hle := countP_le_one_of_noPrimDup S (.str p) (jsPrimEq_refl_str p) hd
      have hge : 0 < S.countP (fun w => jsPrimEq w (.str p)) :=
        List.countP_pos_iff.2 ⟨w, hw, by simpa using hweq⟩
      omega
  · next hany =>
      rw [List.countP_append]
      have hz : S.countP (fun w => jsPrimEq w (.str p)) = 0 := by
        rw [List.countP_eq_zero]
        intro b hb hbp
        exact absurd (any_jsPrimEq_of S (.str p) b hb (by simpa using hbp)) hany
      simp [hz, List.countP_cons, jsPrimEq_refl_str]

/-- Claim C6: the add-on's plugins merge is a set union — applying it
twice changes nothing beyond the first application, the resulting
`plugins` array holds `prettier-plugin-tailwindcss` exactly once, every
previously present plugin stays present, and every other key of the
document is untouched. -/
theorem tailwind_plugins_set_merge (cfg : JObj)
    (_h : getKey cfg "plugins" = none ∨ ∃ xs, getKey cfg "plugins" = some (.arr xs)) :
    prettierPluginsMutate (prettierPluginsMutate cfg) = prettierPluginsMutate cfg ∧
    (pluginsOf (prettierPluginsMutate cfg)).countP
        (fun w => jsPrimEq w (.str "prettier-plugin-tailwindcss")) = 1 ∧
    (∀ x ∈ pluginsOf cfg, x ∈ pluginsOf (prettierPluginsMutate cfg)) ∧
    (∀ k, k ≠ "plugins" → getKey (prettierPluginsMutate cfg) k = getKey cfg k) := by
  have hstep : ∀ d : JObj, prettierPluginsMutate d
      = setKey d "plugins" (.arr (setInsert (setFromList (pluginsOf d))
          (.str "prettier-plugin-tailwindcss"))) := fun _ => rfl
  have hp1 : pluginsOf (prettierPluginsMutate cfg)
      = setInsert (setFromList (pluginsOf cfg))
          (.str "prettier-plugin-tailwindcss") := by
    rw [hstep]
    simp [pluginsOf, getKey_setKey_self]
  have hnd0 : NoPrimDup (setFromList (pluginsOf cfg)) := noPrimDup_setFromList _
  have hnd : NoPrimDup (setInsert (setFromList (pluginsOf cfg))
      (.str "prettier-plugin-tailwindcss")) := noPrimDup_setInsert _ _ hnd0
  refine ⟨?_, ?_, ?_, ?_⟩
  · rw [hstep (prettierPluginsMutate cfg), hp1,
        setFromList_of_noPrimDup _ hnd,
        setInsert_of_mem _ _ ⟨_, mem_setInsert_self _ _, jsPrimEq_refl_str _⟩,
        hstep cfg, setKey_setKey]
  · rw [hp1]
    exact countP_setInsert_target _ _ hnd0
  · intro x hx
    rw [hp1]
    exact mem_setInsert_of_mem _ _ x (mem_setFromList _ x hx)
  · intro k hk
    rw [hstep cfg]
    exact getKey_setKey_ne cfg "plugins" k _ (Ne.symm hk)

/-- Witness for C6: a config with an existing plugins array holding one
other plugin and a duplicate of the target plugin. -/
theorem tailwind_plugins_set_merge_witness :
    (getKey [("plugins", JValue.arr [.str "a", .str "prettier-plugin-tailwindcss"]),
        ("semi", JValue.bool true)] "plugins" = none ∨
      ∃ xs, getKey [("plugins", JValue.arr [.str "a", .str "prettier-plugin-tailwindcss"]),
        ("semi", JValue.bool true)] "plugins" = some (.arr xs)) ∧
    (pluginsOf (prettierPluginsMutate
        [("plugins", JValue.arr [.str "a", .str "prettier-plugin-tailwindcss"]),
         ("semi", JValue.bool true)])).countP
      (fun w => jsPrimEq w (.str "prettier-plugin-tailwindcss")) = 1 ∧
    prettierPluginsMutate (prettierPluginsMutate
        [("plugins", JValue.arr [.str "a", .str "prettier-plugin-tailwindcss"]),
         ("semi", JValue.bool true)])
      = prettierPluginsMutate
        [("plugins", JValue.arr [.str "a", .str "prettier-plugin-tailwindcss"]),
         ("semi", JValue.bool true)] :=
  ⟨Or.inr ⟨[.str "a", .str "prettier-plugin-tailwindcss"], by simp [getKey]⟩,
   (tailwind_plugins_set_merge _
     (Or.inr ⟨[.str "a", .str "prettier-plugin-tailwindcss"], by simp [getKey]⟩)).2.1,
   (tailwind_plugins_set_merge _
     (Or.inr ⟨[.str "a", .str "prettier-plugin-tailwindcss"], by simp [getKey]⟩)).1⟩

/- `||=` lemmas (for C9) -/

theorem getKey_orAssign_same (d : JObj) (k : String) (v : JValue) :
    getKey (orAssign d k v) k =
      match getKey d k with
      | some w => if jsTruthy w then some w else some v
      | none => some v := by
  unfold orAssign
  cases hgk : getKey d k with
  | none => simp [getKey_setKey_self]
  | some w =>
      by_cases ht : jsTruthy w
      · simp [ht, hgk]
      · simp [ht, getKey_setKey_self]

theorem getKey_orAssign_ne (d : JObj) (k k2 : String) (v : JValue) (h : k ≠ k2) :
    getKey (orAssign d k v) k2 = getKey d k2 := by
  unfold orAssign
  cases getKey d k with
  | none => exact getKey_setKey_ne d k k2 v h
  | some w =>
      by_cases ht : jsTruthy w
      · simp [ht]
      · simp [ht, getKey_setKey_ne d k k2 v h]

theorem getKey_orAssign_truthy (d : JObj) (k k2 : String) (v' v : JValue)
    (hg : getKey d k2 = some v) (ht : jsTruthy v = true) :
    getKey (orAssign d k v') k2 = some v := by
  by_cases hk : k = k2
  · subst hk
    rw [getKey_orAssign_same, hg]
    simp [ht]
  · rw [getKey_orAssign_ne d k k2 v' hk]; exact hg

theorem orAssign_of_truthy (d : JObj) (k : String) (v w : JValue)
    (hg : getKey d k = some w) (ht : jsTruthy w = true) :
    orAssign d k v = d := by
  unfold orAssign; rw [hg]; simp [ht]

theorem orAssignIn_obj (d : JObj) (outer k : String) (v : JValue) (inner : JObj)
    (h : getKey d outer = some (.obj inner)) :
    orAssignIn d outer k v = setKey d outer (.obj (orAssign inner k v)) := by
  unfold orAssignIn; rw [h]

theorem getKey_orAssignIn_ne (d : JObj) (outer k k2 : String) (v : JValue)
    (h : outer ≠ k2) : getKey (orAssignIn d outer k v) k2 = getKey d k2 := by
  unfold orAssignIn
  cases hgk : getKey d outer with
  | none => rfl
  | some w =>
      cases w with
      | obj inner => exact getKey_setKey_ne d outer k2 _ h
      | null => rfl
      | bool b => rfl
      | num n => rfl
      | str t => rfl
      | arr xs => rfl

/-- Claim C9: the package.json merge's `||=` updates overwrite keys
holding falsy values — a `scripts.lint` equal to the empty string is
replaced with `eslint .` — while keys with truthy values are left
unchanged. -/
theorem pkg_merge_overwrites_falsy (pkg s : JObj)
    (hs : getKey pkg "scripts" = some (.obj s))
    (hlint : getKey s "lint" = some (.str "")) :
    ∃ s', getKey (pkgMutate pkg) "scripts" = some (.obj s') ∧
      getKey s' "lint" = some (.str "eslint .") ∧
      (∀ k v, getKey s k = some v → jsTruthy v = true → getKey s' k = some v) := by
  set s1 : JObj := orAssign s "prepare" (.str "husky") with hs1
  set s2 : JObj := orAssign s1 "lint" (.str "eslint .") with hs2
  set s3 : JObj := orAssign s2 "lint:fix" (.str "eslint . --fix") with hs3
  set s4 : JObj := orAssign s3 "format" (.str "prettier --write .") with hs4
  refine ⟨s4, ?_, ?_, ?_⟩
  · simp only [pkgMutate]
    rw [orAssign_of_truthy pkg "scripts" (.obj []) (.obj s) hs rfl]
    rw [orAssignIn_obj pkg "scripts" "prepare" _ s hs, ← hs1]
    rw [orAssignIn_obj _ "scripts" "lint" _ s1 (getKey_setKey_self pkg "scripts" _),
        setKey_setKey, ← hs2]
    rw [orAssignIn_obj _ "scripts" "lint:fix" _ s2 (getKey_setKey_self pkg "scripts" _),
        setKey_setKey, ← hs3]
    rw [orAssignIn_obj _ "scripts" "format" _ s3 (getKey_setKey_self pkg "scripts" _),
        setKey_setKey, ← hs4]
    rw [getKey_orAssignIn_ne _ "lint-staged" _ "scripts" _ (by decide),
        getKey_orAssignIn_ne _ "lint-staged" _ "scripts" _ (by decide),
        getKey_orAssign_ne _ "lint-staged" "scripts" _ (by decide)]
    exact getKey_setKey_self pkg "scripts" _
  · rw [hs4, getKey_orAssign_ne _ "format" "lint" _ (by decide),
        hs3, getKey_orAssign_ne _ "lint:fix" "lint" _ (by decide),
        hs2, getKey_orAssign_same]
    have hl1 : getKey s1 "lint" = some (.str "") := by
      rw [hs1, getKey_orAssign_ne _ "prepare" "lint" _ (by decide)]
      exact hlint
    rw [hl1]
    simp [jsTruthy]
  · intro k v hg ht
    rw [hs4]
    refine getKey_orAssign_truthy _ _ _ _ _ ?_ ht
    rw [hs3]
    refine getKey_orAssign_truthy _ _ _ _ _ ?_ ht
    rw [hs2]
    refine getKey_orAssign_truthy _ _ _ _ _ ?_ ht
    rw [hs1]
    exact getKey_orAssign_truthy _ _ _ _ _ hg ht

/-- Witness for C9: a package.json whose `scripts.lint` is the empty
string (falsy) and whose `scripts.format` is already set (truthy). -/
theorem pkg_merge_overwrites_falsy_witness :
    getKey [("scripts", JValue.obj [("lint", .str ""), ("format", .str "biome")])]
        "scripts"
      = some (.obj [("lint", JValue.str ""), ("format", JValue.str "biome")]) ∧
    getKey [("lint", JValue.str ""), ("format", JValue.str "biome")] "lint"
      = some (.str "") ∧
    ∃ s', getKey (pkgMutate
        [("scripts", JValue.obj [("lint", .str ""), ("format", .str "biome")])])
          "scripts" = some (.obj s') ∧
      getKey s' "lint" = some (.str "eslint .") ∧
      (∀ k v, getKey [("lint", JValue.str ""), ("format", JValue.str "biome")] k
          = some v → jsTruthy v = true → getKey s' k = some v) :=
  ⟨rfl, rfl,
   pkg_merge_overwrites_falsy
     [("scripts", JValue.obj [("lint", .str ""), ("format", .str "biome")])]
     [("lint", JValue.str ""), ("format", JValue.str "biome")] rfl rfl⟩

/-- Claim C5: the registry in plain-language mode with npm contains
`.prettierrc.json` (with `"semi": true`), `.eslintrc.json` (whose `env`
includes `"browser": true`) and `src/App.jsx` but not `src/App.tsx`;
in statically-typed mode it contains `src/App.tsx` instead, and the
eslint config's `parser` is `@typescript-eslint/parser`. -/
theorem registry_language_modes (appName : String) :
    (lookupReg (getFileRegistry appName "npm" false false) ".prettierrc.json"
        = some prettierrcJson ∧
      prettierrcJson = jsonFileBytes prettierrcDoc ∧
      getKey (docEntries prettierrcDoc) "semi" = some (.bool true)) ∧
    (lookupReg (getFileRegistry appName "npm" false false) ".eslintrc.json"
        = some eslintrcJavaScript ∧
      eslintrcJavaScript = jsonFileBytes eslintrcJavaScriptDoc ∧
      (∃ env, getKey (docEntries eslintrcJavaScriptDoc) "env" = some (.obj env) ∧
        getKey env "browser" = some (.bool true))) ∧
    ((lookupReg (getFileRegistry appName "npm" false false) "src/App.jsx").isSome = true ∧
      lookupReg (getFileRegistry appName "npm" false false) "src/App.tsx" = none) ∧
    ((lookupReg (getFileRegistry appName "npm" true false) "src/App.tsx").isSome = true ∧
      lookupReg (getFileRegistry appName "npm" true false) "src/App.jsx" = none ∧
      lookupReg (getFileRegistry appName "npm" true false) ".eslintrc.json"
        = some eslintrcTypeScript ∧
      getKey (docEntries eslintrcTypeScriptDoc) "parser"
        = some (.str "@typescript-eslint/parser")) := by
  refine ⟨⟨?_, rfl, ?_⟩, ⟨?_, rfl, ?_⟩, ⟨?_, ?_⟩, ⟨?_, ?_, ?_, ?_⟩⟩ <;>
    first
      | (simp [getFileRegistry, lookupReg, jsTemplates, tsTemplates])
      | (exact ⟨_, rfl, rfl⟩)
      | rfl

/- Substring-occurrence lemmas (for C3) -/

theorem drop_append_of_le (A B : List Char) (i : Nat) (h : i ≤ A.length) :
    (A ++ B).drop i = A.drop i ++ B := by
  rw [List.drop_append_eq_append_drop]
  have h0 : i - A.length = 0 := by omega
  rw [h0, List.drop_zero]

theorem prefix_of_append_of_le (u A B : List Char) (h : u.length ≤ A.length)
    (hp : u <+: A ++ B) : u <+: A := by
  rw [List.prefix_iff_eq_take, List.take_append_eq_append_take] at hp
  have h0 : u.length - A.length = 0 := by omega
  rw [h0, List.take_zero, List.append_nil] at hp
  exact List.prefix_iff_eq_take.2 hp

theorem prefix_append_extend (u A B : List Char) (hp : u <+: A) : u <+: A ++ B :=
  hp.trans (List.prefix_append A B)

theorem prefix_append_decomp (u A B : List Char) (h : A.length < u.length)
    (hp : u <+: A ++ B) : A <+: u ∧ u.drop A.length <+: B := by
  rw [List.prefix_iff_eq_take, List.take_append_eq_append_take,
      List.take_of_length_le (by omega)] at hp
  constructor
  · exact ⟨_, hp.symm⟩
  · rw [hp, List.drop_left]
    exact List.take_prefix _ _

theorem countOcc_nil_of_ne (t : List Char) (ht : t ≠ []) : countOcc t [] = 0 := by
  cases t with
  | nil => exact absurd rfl ht
  | cons c cs => rfl

theorem countOcc_cons (t : List Char) (c : Char) (s : List Char) :
    countOcc t (c :: s) = (if List.isPrefixOf t (c :: s) then 1 else 0) + countOcc t s :=
  rfl

theorem occ_pos (t T : List Char) (i : Nat) (h : t <+: T.drop i) :
    0 < countOcc t T := by
  induction T generalizing i with
  | nil =>
      rw [List.drop_nil, List.prefix_nil] at h
      subst h
      simp [countOcc]
  | cons c T' ih =>
      cases i with
      | zero =>
          rw [List.drop_zero] at h
          have hb : t.isPrefixOf (c :: T') = true := List.isPrefixOf_iff_prefix.2 h
          simp [countOcc, hb]
      | succ i =>
          have hpos : 0 < countOcc t T' := ih i h
          rw [countOcc_cons]
          by_cases hb : List.isPrefixOf t (c :: T') = true
          · rw [if_pos hb]; omega
          · rw [if_neg hb]; omega

theorem occ_unique (t T : List Char) (ht : t ≠ []) (h1 : countOcc t T = 1)
    {i j : Nat} (hi : t <+: T.drop i) (hj : t <+: T.drop j) : i = j := by
  induction T generalizing i j with
  | nil =>
      rw [List.drop_nil, List.prefix_nil] at hi
      exact absurd hi ht
  | cons c T' ih =>
      cases hpf : List.isPrefixOf t (c :: T') with
      | true =>
          have h0 : countOcc t T' = 0 := by
            simp [countOcc, hpf] at h1; omega
          cases i with
          | zero =>
              cases j with
              | zero => rfl
              | succ j => exact absurd (occ_pos t T' j hj) (by omega)
          | succ i => exact absurd (occ_pos t T' i hi) (by omega)
      | false =>
          have h1' : countOcc t T' = 1 := by
            simp [countOcc, hpf] at h1; omega
          cases i with
          | zero =>
              rw [List.drop_zero] at hi
              exact absurd (List.isPrefixOf_iff_prefix.2 hi) (by simp [hpf])
          | succ i =>
              cases j with
              | zero =>
                  rw [List.drop_zero] at hj
                  exact absurd (List.isPrefixOf_iff_prefix.2 hj) (by simp [hpf])
              | succ j => exact congrArg Nat.succ (ih h1' hi hj)

theorem occ_append_ge (t A B : List Char) (ht : t ≠ []) :
    countOcc t A + countOcc t B ≤ countOcc t (A ++ B) := by
  induction A with
  | nil => simp [countOcc_nil_of_ne t ht]
  | cons a A' ih =>
      rw [List.cons_append, countOcc_cons t a A', countOcc_cons t a (A' ++ B)]
      by_cases hf : t <+: a :: A'
      · have hb1 : List.isPrefixOf t (a :: A') = true := List.isPrefixOf_iff_prefix.2 hf
        have hb2 : List.isPrefixOf t (a :: (A' ++ B)) = true := by
          refine List.isPrefixOf_iff_prefix.2 ?_
          rw [← List.cons_append]
          exact prefix_append_extend t (a :: A') B hf
        rw [if_pos hb1, if_pos hb2]
        omega
      · have hb1 : ¬ List.isPrefixOf t (a :: A') = true := by
          intro hx
          exact hf (List.isPrefixOf_iff_prefix.1 hx)
        rw [if_neg hb1]
        by_cases hb2 : List.isPrefixOf t (a :: (A' ++ B)) = true
        · rw [if_pos hb2]; omega
        · rw [if_neg hb2]; omega

theorem occ_append_eq (t A B : List Char) (ht : t ≠ []) (hns : NoSpan t A B) :
    countOcc t (A ++ B) = countOcc t A + countOcc t B := by
  induction A with
  | nil => simp [countOcc_nil_of_ne t ht]
  | cons a A' ih =>
      have hns' : NoSpan t A' B := by
        intro i hi hp
        exact hns (i + 1) (by simpa using Nat.succ_lt_succ hi) hp
      have h01 : (t <+: a :: (A' ++ B)) ↔ (t <+: a :: A') := by
        constructor
        · intro hp
          have := hns 0 (by simp) (by simpa using hp)
          simpa using this
        · intro hp
          rw [← List.cons_append]
          exact prefix_append_extend t (a :: A') B hp
      rw [List.cons_append, countOcc_cons t a A', countOcc_cons t a (A' ++ B), ih hns']
      by_cases hf : t <+: a :: A'
      · rw [if_pos (List.isPrefixOf_iff_prefix.2 hf),
            if_pos (List.isPrefixOf_iff_prefix.2 (h01.2 hf))]
        omega
      · rw [if_neg (fun hx => hf (List.isPrefixOf_iff_prefix.1 hx)),
            if_neg (fun hx => hf (h01.1 (List.isPrefixOf_iff_prefix.1 hx)))]
        omega

theorem getLast?_drop_eq (A : List Char) : ∀ i, i < A.length →
    (A.drop i).getLast? = A.getLast? := by
  induction A with
  | nil => intro i hi; simp at hi
  | cons a A' ih =>
      intro i hi
      cases i with
      | zero => rfl
      | succ i =>
          have hi' : i < A'.length := by simpa using hi
          show (A'.drop i).getLast? = (a :: A').getLast?
          rw [ih i hi']
          cases A' with
          | nil => simp at hi'
          | cons b A'' => rw [List.getLast?_cons_cons]

theorem nospan_of_last (t A B : List Char) (c : Char)
    (hA : A.getLast? = some c) (hc : c ∉ t) : NoSpan t A B := by
  intro i hi hp
  by_cases hlen : t.length ≤ (A.drop i).length
  · exact prefix_of_append_of_le t _ B hlen hp
  · exfalso
    have hsub := (prefix_append_decomp t (A.drop i) B (by omega) hp).1
    have hlast : (A.drop i).getLast? = some c := by
      rw [getLast?_drop_eq A i hi]; exact hA
    have hmem : c ∈ A.drop i := List.mem_of_getLast?_eq_some hlast
    exact hc (hsub.subset hmem)

theorem nospan_into_concat (t A R Y : List Char)
    (hlen : t.length ≤ R.length + 1)
    (hconc : ∀ n, n < t.length → 0 < n → ¬ (t.drop n).isPrefixOf R = true) :
    NoSpan t A (R ++ Y) := by
  intro i hi hp
  by_cases hl : t.length ≤ (A.drop i).length
  · exact prefix_of_append_of_le t _ _ hl hp
  · exfalso
    have hdec := prefix_append_decomp t (A.drop i) (R ++ Y) (by omega) hp
    have hn1 : 0 < (A.drop i).length := by
      rw [List.length_drop]; omega
    have hn2 : (A.drop i).length < t.length := by omega
    have hshort : (t.drop (A.drop i).length).length ≤ R.length := by
      rw [List.length_drop]; omega
    have hpr : t.drop (A.drop i).length <+: R :=
      prefix_of_append_of_le _ _ _ hshort hdec.2
    exact hconc (A.drop i).length hn2 hn1 (List.isPrefixOf_iff_prefix.2 hpr)

theorem containsSub_iff (t T : List Char) :
    containsSub t T = true ↔ ∃ i, t <+: T.drop i := by
  induction T with
  | nil =>
      rw [show containsSub t [] = List.isPrefixOf t [] from rfl,
          List.isPrefixOf_iff_prefix]
      constructor
      · intro h; exact ⟨0, h⟩
      · rintro ⟨i, h⟩; simpa using h
  | cons c T' ih =>
      rw [show containsSub t (c :: T')
            = (List.isPrefixOf t (c :: T') || containsSub t T') from rfl,
          Bool.or_eq_true, List.isPrefixOf_iff_prefix, ih]
      constructor
      · rintro (h | ⟨i, h⟩)
        · exact ⟨0, h⟩
        · exact ⟨i + 1, h⟩
      · rintro ⟨i, h⟩
        cases i with
        | zero => exact Or.inl h
        | succ i => exact Or.inr ⟨i, h⟩

/- Matcher and replacement lemmas (for C3) -/

theorem eatLit_some_iff (lit : List Char) : ∀ (s r : List Char),
    eatLit lit s = some r ↔ s = lit ++ r := by
  induction lit with
  | nil => intro s r; simp [eatLit]
  | cons l ls ih =>
      intro s r
      cases s with
      | nil => simp [eatLit]
      | cons c cs =>
          by_cases hc : c = l
          · subst hc
            simp [eatLit, ih]
          · simp [eatLit, hc]

theorem pl_prefix_of_match (u r : List Char) (h : matchPluginsPat u = some r) :
    plToken <+: u := by
  unfold matchPluginsPat at h
  cases h1 : eatLit "plugins:".data u with
  | none => rw [h1] at h; exact absurd h (by simp)
  | some u1 =>
      have hu := (eatLit_some_iff "plugins:".data u u1).1 h1
      exact ⟨u1, hu.symm⟩

theorem tryReplaceOnce_none (T : List Char)
    (h : ∀ i, matchPluginsPat (T.drop i) = none) : tryReplaceOnce T = none := by
  induction T with
  | nil => rfl
  | cons c T' ih =>
      have h0 : matchPluginsPat (c :: T') = none := h 0
      have hrest : tryReplaceOnce T' = none := ih fun i => h (i + 1)
      simp [tryReplaceOnce, h0, hrest]

theorem tryReplaceOnce_found : ∀ (A B r : List Char),
    (∀ i, i < A.length → matchPluginsPat (A.drop i ++ B) = none) →
    matchPluginsPat B = some r →
    tryReplaceOnce (A ++ B) = some (A ++ (pluginsRepl ++ r)) := by
  intro A
  induction A with
  | nil =>
      intro B r _ hm
      cases B with
      | nil =>
          rw [show matchPluginsPat [] = none from rfl] at hm
          exact absurd hm (by simp)
      | cons b B' =>
          simp only [List.nil_append]
          simp [tryReplaceOnce, hm]
  | cons a A' ih =>
      intro B r h hm
      have h0 : matchPluginsPat (a :: (A' ++ B)) = none := h 0 (by simp)
      have hrest := ih B r (fun i hi => h (i + 1) (by simpa using Nat.succ_lt_succ hi)) hm
      simp [tryReplaceOnce, h0, hrest]

theorem tailwindViteRewrite_eq_of_not_contains (s : List Char)
    (h : containsSub "@tailwindcss/vite".data s = false) :
    tailwindViteRewrite s = replaceFirstPlugins (importLine ++ s) := by
  unfold tailwindViteRewrite
  rw [h]
  simp

theorem tailwindViteRewrite_eq_of_contains (s : List Char)
    (h : containsSub "@tailwindcss/vite".data s = true) :
    tailwindViteRewrite s = replaceFirstPlugins s := by
  unfold tailwindViteRewrite
  rw [h]
  simp

theorem matchP_concrete (Y : List Char) :
    matchPluginsPat ("plugins: [react()]".data ++ Y) = some Y := rfl

theorem matchR_concrete (Y : List Char) :
    matchPluginsPat (pluginsRepl ++ Y) = none := rfl

/-- Counterexample for claim C3 as stated: on a starting text holding
two plugin lists on one line, two applications of the rewrite leave the
(single) plugin-list line containing `tailwindcss()` twice, not exactly
once. -/
theorem tailwind_rewrite_counterexample :
    countOcc twToken (tailwindViteRewrite (tailwindViteRewrite
        "plugins: [react()] plugins: [react()]".data)) = 2 ∧
    ((tailwindViteRewrite (tailwindViteRewrite
        "plugins: [react()] plugins: [react()]".data)).drop importLine.length).all
      (fun c => c != '\n') = true ∧
    countOcc twToken ((tailwindViteRewrite (tailwindViteRewrite
        "plugins: [react()] plugins: [react()]".data)).drop importLine.length) = 2 := by
  refine ⟨by decide, by decide, by decide⟩

/-- Claim C3 (amended): for every starting `vite.config.js` text that
does not already reference the add-on (no `tailwindcss()` invocation
and no `@tailwindcss/vite` import) and whose plugin list is unique
(exactly one occurrence of the literal `plugins:`, in the pattern
`plugins: [react()]`), applying the build-config rewrite twice equals
applying it once, and the rewritten file contains the add-on's plugin
invocation `tailwindcss()` exactly once. -/
theorem tailwind_rewrite_idempotent (X Y s : List Char)
    (hsplit : s = X ++ ("plugins: [react()]".data ++ Y))
    (hpl : countOcc plToken s = 1)
    (htw : countOcc twToken s = 0)
    (hatv : containsSub "@tailwindcss/vite".data s = false) :
    tailwindViteRewrite (tailwindViteRewrite s) = tailwindViteRewrite s ∧
    countOcc twToken (tailwindViteRewrite s) = 1 := by
  subst hsplit
  have hplne : plToken ≠ [] := by decide
  have htwne : twToken ≠ [] := by decide
  have nsP_pl : ∀ A : List Char, NoSpan plToken A ("plugins: [react()]".data ++ Y) :=
    fun A => nospan_into_concat plToken A _ Y (by decide) (by decide)
  have nsP_tw : ∀ A : List Char, NoSpan twToken A ("plugins: [react()]".data ++ Y) :=
    fun A => nospan_into_concat twToken A _ Y (by decide) (by decide)
  have nsR_pl : ∀ A : List Char, NoSpan plToken A (pluginsRepl ++ Y) :=
    fun A => nospan_into_concat plToken A _ Y (by decide) (by decide)
  have nsR_tw : ∀ A : List Char, NoSpan twToken A (pluginsRepl ++ Y) :=
    fun A => nospan_into_concat twToken A _ Y (by decide) (by decide)
  have nsI_pl : ∀ B : List Char, NoSpan plToken importLine B :=
    fun B => nospan_of_last plToken importLine B '\n' (by decide) (by decide)
  have nsI_tw : ∀ B : List Char, NoSpan twToken importLine B :=
    fun B => nospan_of_last twToken importLine B '\n' (by decide) (by decide)
  have nsPY_pl : NoSpan plToken "plugins: [react()]".data Y :=
    nospan_of_last plToken _ Y ']' (by decide) (by decide)
  have nsPY_tw : NoSpan twToken "plugins: [react()]".data Y :=
    nospan_of_last twToken _ Y ']' (by decide) (by decide)
  have nsRY_pl : NoSpan plToken pluginsRepl Y :=
    nospan_of_last plToken _ Y ']' (by decide) (by decide)
  have nsRY_tw : NoSpan twToken pluginsRepl Y :=
    nospan_of_last twToken _ Y ']' (by decide) (by decide)
  have hXY_pl : countOcc plToken X = 0 ∧ countOcc plToken Y = 0 := by
    rw [occ_append_eq plToken X _ hplne (nsP_pl X),
        occ_append_eq plToken _ Y hplne nsPY_pl] at hpl
    have hP1 : countOcc plToken "plugins: [react()]".data = 1 := by decide
    omega
  have hXY_tw : countOcc twToken X = 0 ∧ countOcc twToken Y = 0 := by
    rw [occ_append_eq twToken X _ htwne (nsP_tw X),
        occ_append_eq twToken _ Y htwne nsPY_tw] at htw
    omega
  obtain ⟨hXpl, hYpl⟩ := hXY_pl
  obtain ⟨hXtw, hYtw⟩ := hXY_tw
  have hT'eq : importLine ++ (X ++ ("plugins: [react()]".data ++ Y))
      = (importLine ++ X) ++ ("plugins: [react()]".data ++ Y) := by
    rw [List.append_assoc]
  have hplT : countOcc plToken
      ((importLine ++ X) ++ ("plugins: [react()]".data ++ Y)) = 1 := by
    rw [occ_append_eq plToken _ _ hplne (nsP_pl (importLine ++ X)),
        occ_append_eq plToken importLine X hplne (nsI_pl X),
        occ_append_eq plToken _ Y hplne nsPY_pl]
    have h1 : countOcc plToken importLine = 0 := by decide
    have h2 : countOcc plToken "plugins: [react()]".data = 1 := by decide
    omega
  have hoccIX : plToken <+:
      ((importLine ++ X) ++ ("plugins: [react()]".data ++ Y)).drop
        (importLine ++ X).length := by
    rw [List.drop_left]
    exact prefix_append_extend _ _ _ (List.isPrefixOf_iff_prefix.1 (by decide))
  have hnone1 : ∀ i, i < (importLine ++ X).length →
      matchPluginsPat ((importLine ++ X).drop i
        ++ ("plugins: [react()]".data ++ Y)) = none := by
    intro i hi
    cases hm : matchPluginsPat ((importLine ++ X).drop i
        ++ ("plugins: [react()]".data ++ Y)) with
    | none => rfl
    | some r =>
        exfalso
        have hocc : plToken <+:
            ((importLine ++ X) ++ ("plugins: [react()]".data ++ Y)).drop i := by
          rw [drop_append_of_le _ _ i (by omega)]
          exact pl_prefix_of_match _ r hm
        have hieq := occ_unique plToken _ hplne hplT hocc hoccIX
        omega
  have happ1 : tailwindViteRewrite (X ++ ("plugins: [react()]".data ++ Y))
      = (importLine ++ X) ++ (pluginsRepl ++ Y) := by
    rw [tailwindViteRewrite_eq_of_not_contains _ hatv, hT'eq]
    unfold replaceFirstPlugins
    rw [tryReplaceOnce_found (importLine ++ X) _ Y hnone1 (matchP_concrete Y)]
    rfl
  have htw1 : countOcc twToken ((importLine ++ X) ++ (pluginsRepl ++ Y)) = 1 := by
    rw [occ_append_eq twToken _ _ htwne (nsR_tw (importLine ++ X)),
        occ_append_eq twToken importLine X htwne (nsI_tw X),
        occ_append_eq twToken _ Y htwne nsRY_tw]
    have h1 : countOcc twToken importLine = 0 := by decide
    have h2 : countOcc twToken pluginsRepl = 1 := by decide
    omega
  have hplT1 : countOcc plToken ((importLine ++ X) ++ (pluginsRepl ++ Y)) = 1 := by
    rw [occ_append_eq plToken _ _ hplne (nsR_pl (importLine ++ X)),
        occ_append_eq plToken importLine X hplne (nsI_pl X),
        occ_append_eq plToken _ Y hplne nsRY_pl]
    have h1 : countOcc plToken importLine = 0 := by decide
    have h2 : countOcc plToken pluginsRepl = 1 := by decide
    omega
  have hoccIX2 : plToken <+:
      ((importLine ++ X) ++ (pluginsRepl ++ Y)).drop (importLine ++ X).length := by
    rw [List.drop_left]
    exact prefix_append_extend _ _ _ (List.isPrefixOf_iff_prefix.1 (by decide))
  have hnone2 : ∀ i,
      matchPluginsPat (((importLine ++ X) ++ (pluginsRepl ++ Y)).drop i) = none := by
    intro i
    cases hm : matchPluginsPat (((importLine ++ X) ++ (pluginsRepl ++ Y)).drop i) with
    | none => rfl
    | some r =>
        exfalso
        have hocc : plToken <+: ((importLine ++ X) ++ (pluginsRepl ++ Y)).drop i :=
          pl_prefix_of_match _ r hm
        have hieq := occ_unique plToken _ hplne hplT1 hocc hoccIX2
        rw [hieq, List.drop_left, matchR_concrete Y] at hm
        exact absurd hm (by simp)
  have h25I : (25 : Nat) ≤ importLine.length := by decide
  have hcont : containsSub "@tailwindcss/vite".data
      ((importLine ++ X) ++ (pluginsRepl ++ Y)) = true := by
    refine (containsSub_iff _ _).2 ⟨25, ?_⟩
    rw [drop_append_of_le _ _ 25 (by rw [List.length_append]; omega),
        drop_append_of_le importLine X 25 h25I, List.append_assoc]
    exact prefix_append_extend _ _ _ (List.isPrefixOf_iff_prefix.1 (by decide))
  have happ2 : tailwindViteRewrite ((importLine ++ X) ++ (pluginsRepl ++ Y))
      = (importLine ++ X) ++ (pluginsRepl ++ Y) := by
    rw [tailwindViteRewrite_eq_of_contains _ hcont]
    unfold replaceFirstPlugins
    rw [tryReplaceOnce_none _ hnone2]
    rfl
  refine ⟨?_, ?_⟩
  · rw [happ1]
    exact happ2
  · rw [happ1]
    exact htw1

/-- Witness for C3 (amended) on the concrete text
`"x\nplugins: [react()]\ny"`. -/
theorem tailwind_rewrite_idempotent_witness :
    ("x\nplugins: [react()]\ny".data
        = "x\n".data ++ ("plugins: [react()]".data ++ "\ny".data)) ∧
    countOcc plToken "x\nplugins: [react()]\ny".data = 1 ∧
    countOcc twToken "x\nplugins: [react()]\ny".data = 0 ∧
    containsSub "@tailwindcss/vite".data "x\nplugins: [react()]\ny".data = false ∧
    (tailwindViteRewrite (tailwindViteRewrite "x\nplugins: [react()]\ny".data)
        = tailwindViteRewrite "x\nplugins: [react()]\ny".data ∧
      countOcc twToken (tailwindViteRewrite "x\nplugins: [react()]\ny".data) = 1) :=
  ⟨by decide, by decide, by decide, by decide,
   tailwind_rewrite_idempotent "x\n".data "\ny".data "x\nplugins: [react()]\ny".data
     (by decide) (by decide) (by decide) (by decide)⟩

end CRV
